import Mathlib

/-!
SVG Cleaner command-line front end (`src/cli/main.cpp`)

A shallow embedding of `processFile`, the message handlers and `main`
(one-shot mode and the `--slave` persistent-worker loop), followed by the
properties of the pass pipeline and of the shared-memory protocol.

Conventions of the embedding

* The process state that `main.cpp` touches (installed message handler, the
  globals `semaphore2` and `appLog`, the attached shared segment, what was
  written to `stderr`) is the record `Proc`; every call that is visible from
  outside the process is appended to `Proc.trace`.
* Code of other translation units (`Replacer`, `Remover`, `SvgDocument`,
  `Keys`, the controller process) is not part of `main.cpp`; what such a call
  does to the process is supplied by an environment record (`FileEnv`, `Turn`,
  `Sys`): the messages it emits, the value it returns.
* `exit(1)` and `abort()` end the process: they are results of the state
  function, and nothing runs after them.
* Of the conditional branches of the file the embedding follows those of a
  build with `USE_IPC`, on a Unix system, with Qt 5
  (`QT_VERSION >= 0x050000`).
-/

namespace SVGCleaner

/-! ## Strings and bytes -/

/-- One UTF-16 code unit, the element type of `QString`. -/
abbrev QChar := Fin 65536

/-- One byte of a buffer or of the shared segment. -/
abbrev Byte := Fin 256

/-- A `QString`: either the null string (`QString()`, also what `clear()`
leaves) or a sequence of UTF-16 code units. -/
inductive QString where
  | null : QString
  | mk (units : List QChar) : QString
deriving DecidableEq, Repr

namespace QString

/-- The code units of the string; the null string has none. -/
def units : QString → List QChar
  | null => []
  | mk u => u

/-- `QString::isEmpty()`: true for the null string and for `""`. -/
def isEmpty (s : QString) : Bool := s.units.isEmpty

/-- `QString::size()`. -/
def size (s : QString) : Nat := s.units.length

/-- `operator+` / `operator+=` on two `QString`s: the result is null only when
both operands are. -/
def append : QString → QString → QString
  | null, null => null
  | a, b => mk (a.units ++ b.units)

instance : Append QString := ⟨append⟩

/-- `operator==`: comparison of the contents (a null string equals `""`). -/
def eq (a b : QString) : Bool := decide (a.units = b.units)

/-- `QString::endsWith(const QString &)`. -/
def endsWith (s t : QString) : Bool := t.units.isSuffixOf s.units

end QString

/-- `QLatin1String` literal converted to a `QString` (the `QL1S` macro of the
sources): one code unit per character, never null. -/
def QL1S (s : String) : QString :=
  QString.mk (s.toList.map fun c => (Fin.ofNat c.toNat : QChar))

/-- `QStringList::contains`. -/
def contains (l : List QString) (x : QString) : Bool := l.any fun a => a.eq x

/-- Text of an unsigned decimal number, as `%u` prints the `int` it is given
(the value is taken modulo 2^32). -/
def fmtU (n : Nat) : String := toString (n % 4294967296)

/-! ## `QDataStream` string format over a `QBuffer` -/

/-- Big-endian bytes of a 32-bit unsigned number (a wider number is
truncated, as the cast to `quint32` does). -/
def u32be (n : Nat) : List Byte :=
  [Fin.ofNat (n / 16777216 % 256), Fin.ofNat (n / 65536 % 256),
   Fin.ofNat (n / 256 % 256), Fin.ofNat (n % 256)]

/-- Big-endian bytes of one code unit. -/
def unitBytes (c : QChar) : List Byte := [Fin.ofNat (c.val / 256), Fin.ofNat (c.val % 256)]

/-- Bytes of a list of code units, two per unit, big-endian. -/
def unitsBytes : List QChar → List Byte
  | [] => []
  | c :: cs => unitBytes c ++ unitsBytes cs

/-- Modelled from the spec: the "length-prefixed string" of the shared-memory
payload format. Missing from the sources is the Qt library's
`operator<<(QDataStream &, const QString &)`; this is its big-endian default
format: a 32-bit byte count followed by the UTF-16 code units, and the count
`0xFFFFFFFF` with no data for a null string. -/
def encodeQString : QString → List Byte
  | QString.null => u32be 4294967295
  | QString.mk u => u32be (2 * u.length) ++ unitsBytes u

/-- Code units of a byte sequence, two bytes per unit, big-endian. -/
def bytesUnits : List Byte → List QChar
  | hi :: lo :: rest => (Fin.ofNat (hi.val * 256 + lo.val) : QChar) :: bytesUnits rest
  | _ => []

/-- A `QBuffer` opened read-write: its byte array and the device position. -/
structure QBuffer where
  data : List Byte
  pos : Nat
deriving DecidableEq, Repr

namespace QBuffer

/-- `QBuffer::setData(ptr, size)` then `open`: a private copy of the first
`size` bytes, position 0. -/
def setData (src : List Byte) (size : Nat) : QBuffer := ⟨src.take size, 0⟩

/-- `QBuffer::size()`. -/
def size (b : QBuffer) : Nat := b.data.length

/-- `QBuffer::seek`. -/
def seek (b : QBuffer) (p : Nat) : QBuffer := { b with pos := p }

/-- Read up to `n` bytes at the position; a short read returns what is left.
The position advances by the number of bytes read. -/
def read (b : QBuffer) (n : Nat) : List Byte × QBuffer :=
  ((b.data.drop b.pos).take n, { b with pos := b.pos + ((b.data.drop b.pos).take n).length })

/-- Write at the position: the bytes replace what is there and the array grows
when they reach past its end. -/
def write (b : QBuffer) (bytes : List Byte) : QBuffer :=
  ⟨b.data.take b.pos ++ bytes ++ b.data.drop (b.pos + bytes.length), b.pos + bytes.length⟩

end QBuffer

/-- `QDataStream::operator>>(quint32 &)`: four bytes big-endian; when fewer
are left the value read is 0. -/
def readUInt32 (b : QBuffer) : Nat × QBuffer :=
  match b.read 4 with
  | ([b0, b1, b2, b3], b') =>
      (b0.val * 16777216 + b1.val * 65536 + b2.val * 256 + b3.val, b')
  | (_, b') => (0, b')

/-- Modelled from the spec: decoding of one "length-prefixed string". Missing
from the sources is the Qt library's `operator>>(QDataStream &, QString &)`:
count `0xFFFFFFFF` is the null string, an odd count or a payload shorter than
the count leaves the string cleared, count 0 is `""`. -/
def readQString (b : QBuffer) : QString × QBuffer :=
  match readUInt32 b with
  | (bytes, b1) =>
    if bytes = 4294967295 then (QString.null, b1)
    else if 0 < bytes then
      if bytes % 2 = 1 then (QString.null, b1)
      else
        match b1.read bytes with
        | (raw, b2) =>
          if raw.length = bytes then (QString.mk (bytesUnits raw), b2)
          else (QString.null, b2)
    else (QString.mk [], b1)

/-- `out << str` on a stream over the buffer. -/
def writeQString (b : QBuffer) (s : QString) : QBuffer := b.write (encodeQString s)

/-- `memcpy(to, from, n)` on the contents of the destination: its first `n`
bytes become the first `n` bytes of `src` (callers pass `n` within both). -/
def memcpy (dst src : List Byte) (n : Nat) : List Byte := src.take n ++ dst.drop n

/-! ## Option keys, passes, messages, process state -/

/-- The option keys (`Key::...`) that `main.cpp` names; `other` stands for the
keys of the option table that it never names. -/
inductive Key where
  | ShortOutput | CompactOutput
  | CreateViewbox | RemoveUnusedDefs | ApplyTransformsToDefs
  | RemoveNotAppliedAttributes | RemoveDuplicatedDefs | MergeGradients
  | RemoveUnreferencedIds | ApplyTransformsToShapes | RemoveOutsideElements
  | ConvertBasicShapes | UngroupContainers | GroupRemoveFill | PathRemoveFill
  | ReplaceEqualPathsByUse | ReplaceEqualEltsByUse | GroupTextStyles
  | GroupElemByStyle | TrimIds | SortDefs | JoinStyleAttributes
  | TransformPrecision | AttributesPrecision | CoordsPrecision
  | RemoveTinyGaussianBlur
  | other (id : Nat)
deriving DecidableEq, Repr

/-- The cleaning methods of `Replacer` and `Remover` that `processFile` calls. -/
inductive Pass where
  | convertEntityData | splitStyleAttributes | convertCDATAStyle | convertUnits
  | prepareDefs | fixWrongAttr | roundNumericAttributes | prepareLinkedStyles
  | convertColors | cleanSvgElementAttribute | convertSizeToViewbox
  | removeUnusedDefs | applyTransformToDefs | removeUnusedDefsAttributes
  | removeDuplicatedDefs | mergeGradients | mergeGradientsWithEqualStopElem
  | removeElements | removeAttributes | removeElementsFinal
  | removeUnreferencedIds | cleanPresentationAttributes | applyTransformToShapes
  | calcElementsBoundingBox | convertBasicShapes | ungroupAElement
  | ungroupSwitchElement | removeGroups | removeGroupFill | removePathFill
  | processPaths | replaceEqualPathsWithUse | removeElementsOutsideTheViewbox
  | replaceEqualElementsByUse | moveStyleFromUsedElemToUse
  | groupTextElementsStyles | groupElementsByStyles | trimIds
  | checkXlinkDeclaration | sortDefs | finalFixes | joinStyleAttr
deriving DecidableEq, Repr

/-- `QtMsgType`. -/
inductive QtMsgType where
  | QtDebugMsg | QtWarningMsg | QtCriticalMsg | QtFatalMsg
deriving DecidableEq, Repr

/-- A message handed to the installed message handler. -/
structure Msg where
  type : QtMsgType
  text : QString
deriving DecidableEq, Repr

/-- What the process does that is visible outside `main.cpp`. -/
inductive Event where
  /-- a `qDebug`/`qWarning`/`qFatal` call, here or in a collaborator -/
  | message (m : Msg)
  /-- `QSharedMemory::attach()` on the segment of that key, and its result -/
  | attach (key : QString) (ok : Bool)
  /-- `semaphore1.acquire()` (the `job_ready` semaphore) and its result -/
  | acquire (ok : Bool)
  /-- `semaphore2->release()` (the `result_ready` semaphore) -/
  | release
  /-- entry into `processFile(inPath, outPath)` -/
  | processFile (inPath outPath : QString)
  /-- `doc.loadFile(inPath)` -/
  | loadFile (inPath : QString)
  /-- `doc.calcElemAttrCount(text)` -/
  | calcElemAttrCount (text : QString)
  /-- a call of one cleaning method -/
  | pass (p : Pass)
  /-- `outFile.write(doc.toString(indent).toUtf8())` on the opened output file -/
  | writeFile (outPath : QString) (indent : Int)
deriving DecidableEq, Repr

/-- The message handler that is installed. -/
inductive Handler where
  /-- the Qt default handler, before `qInstallMessageHandler` -/
  | qtDefault
  | slaveMessageOutput
  | ownMessageOutput
deriving DecidableEq, Repr

/-- What one `fprintf(stderr, ...)` writes: a text, or, when the argument of
`%s` points into a destroyed temporary, the fixed text before and after the
characters that are read through that pointer. -/
inductive Printed where
  | text (t : QString)
  | stale (before after : QString)
deriving DecidableEq, Repr

/-- The state of the process. -/
structure Proc where
  /-- the installed message handler -/
  handler : Handler
  /-- the global `semaphore2` is a non-null pointer -/
  semaphore2 : Bool
  /-- the global `appLog` -/
  appLog : QString
  /-- the bytes of the attached shared segment -/
  sharedMemory : List Byte
  /-- what was written to `stderr`, oldest first -/
  stderr : List Printed
  /-- the visible calls so far, oldest first -/
  trace : List Event
deriving DecidableEq, Repr

/-- The state of a process at the entry of `main`. -/
def Proc.start : Proc :=
  { handler := Handler.qtDefault, semaphore2 := false, appLog := QString.null,
    sharedMemory := [], stderr := [], trace := [] }

/-- How a piece of the program ends. -/
inductive Res (α : Type) where
  /-- it returned `a` -/
  | ok (a : α) (s : Proc)
  /-- the process ended in `exit(code)` -/
  | exit (code : Int) (s : Proc)
  /-- the process ended in `abort()` (a fatal message under the default handler) -/
  | abort (s : Proc)
  /-- the process waits in `semaphore1.acquire()` and the controller never
  releases `job_ready` again -/
  | blocked (s : Proc)
deriving Repr

/-- The last state of the process. -/
def Res.proc {α : Type} : Res α → Proc
  | Res.ok _ s => s
  | Res.exit _ s => s
  | Res.abort s => s
  | Res.blocked s => s

/-- A piece of the program: a function of the process state. -/
def M (α : Type) : Type := Proc → Res α

/-- Sequencing: the second piece runs only when the first one returned. -/
def M.bind {α β : Type} (m : M α) (f : α → M β) : M β := fun s =>
  match m s with
  | Res.ok a s1 => f a s1
  | Res.exit c s1 => Res.exit c s1
  | Res.abort s1 => Res.abort s1
  | Res.blocked s1 => Res.blocked s1

instance : Monad M where
  pure a := fun s => Res.ok a s
  bind := M.bind

/-- Append one visible call to the trace. -/
def record (e : Event) : M Unit := fun s => Res.ok () { s with trace := s.trace ++ [e] }

/-- `exit(code)`. -/
def exit (code : Int) : M Unit := fun s => Res.exit code s

/-- `abort()`. -/
def abort : M Unit := fun s => Res.abort s

/-- `semaphore2->release()`. -/
def release : M Unit := record Event.release

/-- `slaveMessageOutput` (lines 339-360, the Qt 5 signature): the message and a newline are added
to `appLog`; a fatal message releases `semaphore2`, when it is set, and exits
with status 1. -/
def slaveMessageOutput (m : Msg) : M Unit := do
  (fun s => Res.ok () { s with appLog := s.appLog ++ (m.text ++ QL1S "\n") })
  if m.type = QtMsgType.QtFatalMsg then
    if (← (fun s => Res.ok s.semaphore2 s)) then
      release
    exit 1

/-- `fprintf(stderr, ...)`. -/
def fprintfStderr (p : Printed) : M Unit :=
  fun s => Res.ok () { s with stderr := s.stderr ++ [p] }

/-- `ownMessageOutput` (lines 362-379, the Qt 5 signature). Its `msg` is
`strMsg.toStdString().c_str()` (line 366), a pointer into a temporary that is
destroyed at the end of that line, so the characters that `%s` prints are not
determined by the source: only the text around them is. -/
def ownMessageOutput (m : Msg) : M Unit := do
  if m.type = QtMsgType.QtFatalMsg then
    fprintfStderr (Printed.stale (QL1S "Error: ") (QL1S "\n"))
    exit 1
  else if m.type = QtMsgType.QtWarningMsg then
    fprintfStderr (Printed.stale (QL1S "Warning: ") (QL1S "\n"))
  else
    fprintfStderr (Printed.stale (QL1S "") (QL1S "\n"))

/-- The Qt default message handler: the text goes to `stderr`. -/
def qtDefaultOutput (m : Msg) : M Unit :=
  fprintfStderr (Printed.text (m.text ++ QL1S "\n"))

/-- A message call (`qDebug`, `qWarning`, `qFatal`): the installed handler is
run on it; when a fatal message's handler returns, Qt aborts the process. -/
def qtMessage (m : Msg) : M Unit := do
  record (Event.message m)
  match (← (fun s => Res.ok s.handler s)) with
  | Handler.qtDefault => qtDefaultOutput m
  | Handler.slaveMessageOutput => slaveMessageOutput m
  | Handler.ownMessageOutput => ownMessageOutput m
  if m.type = QtMsgType.QtFatalMsg then
    abort

/-- `qDebug(format, ...)`, the call with a format string: `text` is the
formatted message. -/
def qDebug (text : QString) : M Unit := qtMessage ⟨QtMsgType.QtDebugMsg, text⟩

/-- `qFatal(...)`. -/
def qFatal (text : QString) : M Unit := qtMessage ⟨QtMsgType.QtFatalMsg, text⟩

/-- The messages that a call into another translation unit emits, in order. -/
def emitAll : List Msg → M Unit
  | [] => pure ()
  | m :: ms => do
    qtMessage m
    emitAll ms

/-! ## `processFile` -/

/-- What the collaborators of one `processFile` call do: the document loader,
the cleaning methods and the file system are not part of `main.cpp`. -/
structure FileEnv where
  /-- `QFile(inPath).size()` -/
  initialSize : Nat
  /-- `doc.loadFile(inPath)`: `none` when it returns true, else `doc.lastError()` -/
  loadError : Option QString
  /-- `BaseCleaner::svgElement(doc).isNull()` -/
  svgElementIsNull : Bool
  /-- messages of `doc.calcElemAttrCount("initial")` -/
  calcInitial : List Msg
  /-- messages of the cleaning method called at the i-th call site of lines
  162-233, the sites numbered from 0 in source order -/
  passMsgs : Nat → List Msg
  /-- `outFile.open(QIODevice::WriteOnly)` -/
  openOut : Bool
  /-- `QFile(outPath).size()` after the write -/
  finalSize : Nat
  /-- messages of `doc.calcElemAttrCount("final")` -/
  calcFinal : List Msg

/-- A call of a cleaning method at call site `site`. -/
def callPass (env : FileEnv) (site : Nat) (p : Pass) : M Unit := do
  record (Event.pass p)
  emitAll (env.passMsgs site)

/-- `processFile` (lines 141-251), with `keys` the flags of the global option
table `Keys`. -/
def processFile (keys : Key → Bool) (env : FileEnv) (inPath outPath : QString) : M Unit := do
  record (Event.processFile inPath outPath)
  (if !keys Key.ShortOutput then
    qDebug (QL1S ("The initial file size is: " ++ fmtU env.initialSize))
   else pure ())
  record (Event.loadFile inPath)
  (match env.loadError with
   | some e => qFatal e
   | none => pure ())
  (if env.svgElementIsNull then
    qFatal (QL1S "invalid svg file")
   else pure ())
  record (Event.calcElemAttrCount (QL1S "initial"))
  emitAll env.calcInitial
  -- mandatory fixes used to simplify subsequent functions
  callPass env 0 Pass.convertEntityData
  callPass env 1 Pass.splitStyleAttributes
  callPass env 2 Pass.convertCDATAStyle
  callPass env 3 Pass.convertUnits
  callPass env 4 Pass.prepareDefs
  callPass env 5 Pass.fixWrongAttr
  callPass env 6 Pass.roundNumericAttributes
  callPass env 7 Pass.prepareLinkedStyles
  callPass env 8 Pass.convertColors
  -- cleaning methods
  callPass env 9 Pass.cleanSvgElementAttribute
  (if keys Key.CreateViewbox then
    callPass env 10 Pass.convertSizeToViewbox
   else pure ())
  (if keys Key.RemoveUnusedDefs then
    callPass env 11 Pass.removeUnusedDefs
   else pure ())
  (if keys Key.ApplyTransformsToDefs then
    callPass env 12 Pass.applyTransformToDefs
   else pure ())
  (if keys Key.RemoveNotAppliedAttributes then
    callPass env 13 Pass.removeUnusedDefsAttributes
   else pure ())
  (if keys Key.RemoveDuplicatedDefs then
    callPass env 14 Pass.removeDuplicatedDefs
   else pure ())
  (if keys Key.MergeGradients then do
    callPass env 15 Pass.mergeGradients
    callPass env 16 Pass.mergeGradientsWithEqualStopElem
   else pure ())
  callPass env 17 Pass.removeElements
  callPass env 18 Pass.removeAttributes
  callPass env 19 Pass.removeElementsFinal
  (if keys Key.RemoveUnreferencedIds then
    callPass env 20 Pass.removeUnreferencedIds
   else pure ())
  callPass env 21 Pass.cleanPresentationAttributes
  (if keys Key.ApplyTransformsToShapes then
    callPass env 22 Pass.applyTransformToShapes
   else pure ())
  (if keys Key.RemoveOutsideElements then
    callPass env 23 Pass.calcElementsBoundingBox
   else pure ())
  (if keys Key.ConvertBasicShapes then
    callPass env 24 Pass.convertBasicShapes
   else pure ())
  (if keys Key.UngroupContainers then do
    callPass env 25 Pass.ungroupAElement
    callPass env 26 Pass.ungroupSwitchElement
    callPass env 27 Pass.removeGroups
   else pure ())
  (if keys Key.GroupRemoveFill then
    callPass env 28 Pass.removeGroupFill
   else pure ())
  (if keys Key.PathRemoveFill then
    callPass env 29 Pass.removePathFill
   else pure ())
  callPass env 30 Pass.processPaths
  (if keys Key.ReplaceEqualPathsByUse then
    callPass env 31 Pass.replaceEqualPathsWithUse
   else pure ())
  (if keys Key.RemoveOutsideElements then
    callPass env 32 Pass.removeElementsOutsideTheViewbox
   else pure ())
  (if keys Key.ReplaceEqualEltsByUse then
    callPass env 33 Pass.replaceEqualElementsByUse
   else pure ())
  (if keys Key.RemoveNotAppliedAttributes then
    callPass env 34 Pass.moveStyleFromUsedElemToUse
   else pure ())
  (if keys Key.GroupTextStyles then
    callPass env 35 Pass.groupTextElementsStyles
   else pure ())
  (if keys Key.GroupElemByStyle then
    callPass env 36 Pass.groupElementsByStyles
   else pure ())
  (if keys Key.ApplyTransformsToDefs then
    callPass env 37 Pass.applyTransformToDefs
   else pure ())
  (if keys Key.TrimIds then
    callPass env 38 Pass.trimIds
   else pure ())
  callPass env 39 Pass.checkXlinkDeclaration
  (if keys Key.SortDefs then
    callPass env 40 Pass.sortDefs
   else pure ())
  callPass env 41 Pass.finalFixes
  (if keys Key.JoinStyleAttributes then
    callPass env 42 Pass.joinStyleAttr
   else pure ())
  -- save file
  (if !env.openOut then
    qFatal (QL1S "could not write output file")
   else pure ())
  record (Event.writeFile outPath (if keys Key.CompactOutput then -1 else 1))
  (if !keys Key.ShortOutput then
    qDebug (QL1S ("The final file size is: " ++ fmtU env.finalSize))
   else pure ())
  record (Event.calcElemAttrCount (QL1S "final"))
  emitAll env.calcFinal

/-! ## Informational output -/

/-- The tables of the global option object `Keys` that the help and preset
listings read; they are declared outside `main.cpp`. -/
structure KeysTable where
  /-- `Keys.keyName(key)` -/
  keyName : Key → QString
  /-- `Keys.description(key)`, after `Keys.prepareDescription()` -/
  description : Key → QString
  /-- `Keys.basicPresetKeys()` -/
  basicPresetKeys : List Key
  /-- `Keys.completePresetKeys()` -/
  completePresetKeys : List Key
  /-- `Keys.extremePresetKeys()` -/
  extremePresetKeys : List Key
  /-- `Keys.elementsKeysId()` -/
  elementsKeysId : List Key
  /-- `Keys.attributesKeysId()` -/
  attributesKeysId : List Key
  /-- `Keys.attributesUtilsKeysId()` -/
  attributesUtilsKeysId : List Key
  /-- `Keys.pathsKeysId()` -/
  pathsKeysId : List Key
  /-- `Keys.optimizationsKeysId()` -/
  optimizationsKeysId : List Key
  /-- `Keys.optimizationsUtilsKeysId()` -/
  optimizationsUtilsKeysId : List Key
  /-- `fromDouble(Keys.intNumber(key))` once `Keys.setPreset(preset)` was called -/
  intNumberText : QString → Key → QString
  /-- `fromDouble(Keys.doubleNumber(key))` once `Keys.setPreset(preset)` was called -/
  doubleNumberText : QString → Key → QString
  /-- the text that `QString::arg` puts for `Keys.doubleNumber(key)` of the defaults -/
  argDoubleText : Key → QString

/-- Modelled from the spec: the preset name `basic` of `--preset=basic`; the
constant `Preset::Basic` is declared outside `main.cpp`. -/
def Preset.Basic : QString := QL1S "basic"

/-- Modelled from the spec: the preset name `complete` of `--preset=complete`;
the constant `Preset::Complete` is declared outside `main.cpp`. -/
def Preset.Complete : QString := QL1S "complete"

/-- Modelled from the spec: the preset name `extreme` of `--preset=extreme`;
the constant `Preset::Extreme` is declared outside `main.cpp`. -/
def Preset.Extreme : QString := QL1S "extreme"

/-- Run `f` on every element, in order (`foreach`). -/
def forEach {α : Type} (f : α → M Unit) : List α → M Unit
  | [] => pure ()
  | a :: as => do
    f a
    forEach f as

/-- `QString::leftJustified(width, ' ')`: blanks are added up to the width. -/
def leftJustified (s : QString) (width : Nat) : QString :=
  QString.mk (s.units ++ List.replicate (width - s.size) (Fin.ofNat 32 : QChar))

/-- `printLine(const QString &key, const QString &desc)` (lines 51-54). -/
def printLineStr (key desc : QString) : M Unit :=
  qDebug (QL1S "  " ++ leftJustified key 35 ++ QL1S " " ++ desc)

/-- `printLine(int keyId, const QString &desc = QString())` (lines 41-49). -/
def printLine (t : KeysTable) (keyId : Key) (desc : QString) : M Unit :=
  if desc.isEmpty then
    qDebug (QL1S "  " ++ leftJustified (t.keyName keyId) 35 ++ QL1S " " ++ t.description keyId)
  else
    qDebug (QL1S "  " ++ leftJustified (t.keyName keyId) 35 ++ QL1S " " ++ desc)

/-- What the Qt library's `QDebug` stream hands to the message handler for
`qDebug() << x` with one operand; `QDebug` is not part of the sources. Qt puts
a `QString` operand between double quotes and a C string operand as it is;
escapes inside the quotes and a blank after the operand depend on the Qt
version. -/
structure QDebugStream where
  /-- the message of `qDebug() << "text"`, the operand a C string -/
  ofChars : QString → QString
  /-- the message of `qDebug() << s`, the operand a `QString` -/
  ofQString : QString → QString

/-- `showPresetInfo` (lines 56-80). The first component of `sel` is the preset
that `Keys.setPreset` was called with, the second the key list. -/
def showPresetInfo (q : QDebugStream) (t : KeysTable) (presetName : QString) : M Unit :=
  let sel : QString × List Key :=
    if presetName.endsWith Preset.Basic then (Preset.Basic, t.basicPresetKeys)
    else if presetName.endsWith Preset.Complete then (Preset.Complete, t.completePresetKeys)
    else if presetName.endsWith Preset.Extreme then (Preset.Extreme, t.extremePresetKeys)
    else (QString.null, [])
  forEach (fun key =>
    if key = Key.TransformPrecision ∨ key = Key.AttributesPrecision
        ∨ key = Key.CoordsPrecision then
      qDebug (q.ofQString (t.keyName key ++ QL1S "=" ++ t.intNumberText sel.1 key))
    else if key = Key.RemoveTinyGaussianBlur then
      qDebug (q.ofQString (t.keyName key ++ QL1S "=" ++ t.doubleNumberText sel.1 key))
    else
      qDebug (q.ofQString (t.keyName key))) sel.2

/-- `showHelp` (lines 82-139). -/
def showHelp (q : QDebugStream) (t : KeysTable) : M Unit := do
  qDebug (q.ofChars
    (QL1S "SVG Cleaner could help you to clean up your SVG files from unnecessary data."))
  qDebug (q.ofChars (QL1S ""))
  qDebug (q.ofChars (QL1S "Usage:"))
  qDebug (q.ofChars (QL1S "  svgcleaner-cli <in-file> <out-file> [--preset=] [--options]"))
  qDebug (q.ofChars (QL1S "Show options included in preset:"))
  qDebug (q.ofChars (QL1S "  svgcleaner-cli --info --preset=<name>"))
  qDebug (q.ofChars (QL1S ""))
  qDebug (q.ofChars (QL1S "Presets:"))
  printLineStr (QL1S "--preset=basic") (QL1S "Basic cleaning")
  printLineStr (QL1S "--preset=complete") (QL1S "Complete cleaning [default]")
  printLineStr (QL1S "--preset=extreme") (QL1S "Extreme cleaning")
  qDebug (q.ofChars (QL1S ""))
  qDebug (q.ofChars (QL1S "Options:"))
  qDebug (q.ofChars (QL1S ""))
  printLineStr (QL1S "-h --help") (QL1S "Show this text")
  printLineStr (QL1S "-v --version") (QL1S "Show version")
  qDebug (q.ofChars (QL1S ""))
  qDebug (q.ofChars (QL1S "Elements:"))
  forEach (fun key =>
    if key = Key.RemoveTinyGaussianBlur then
      printLineStr (t.keyName key ++ QL1S "=<0..1.0>")
        (t.description key ++ (QL1S " [default: "
          ++ t.argDoubleText Key.RemoveTinyGaussianBlur ++ QL1S "]"))
    else
      printLine t key QString.null) t.elementsKeysId
  qDebug (q.ofChars (QL1S ""))
  qDebug (q.ofChars (QL1S "Attributes:"))
  forEach (fun key => printLine t key QString.null) t.attributesKeysId
  qDebug (q.ofChars (QL1S "Additional:"))
  forEach (fun key => printLine t key QString.null) t.attributesUtilsKeysId
  qDebug (q.ofChars (QL1S ""))
  qDebug (q.ofChars (QL1S "Paths:"))
  forEach (fun key => printLine t key (t.description key)) t.pathsKeysId
  qDebug (q.ofChars (QL1S ""))
  qDebug (q.ofChars (QL1S "Optimizations:"))
  forEach (fun key =>
    if key = Key.TransformPrecision ∨ key = Key.AttributesPrecision
        ∨ key = Key.CoordsPrecision then
      printLineStr (t.keyName key ++ QL1S "=<1..8>")
        (t.description key ++ (QL1S " [default: " ++ t.argDoubleText key ++ QL1S "]"))
    else
      printLine t key QString.null) t.optimizationsKeysId
  qDebug (q.ofChars (QL1S "Additional:"))
  forEach (fun key => printLine t key QString.null) t.optimizationsUtilsKeysId

/-! ## `main` and the persistent-worker loop -/

/-- One round of the controller, seen from the worker at
`semaphore1.acquire()`: whether the acquire succeeds, the bytes of the segment
as the controller left them before it released `job_ready`, and the
collaborators of the `processFile` call that follows. -/
structure Turn where
  acquire : Bool
  segment : List Byte
  env : FileEnv

/-- What surrounds one run of `main`. -/
structure Sys where
  /-- the tables of `Keys` -/
  table : KeysTable
  /-- the `QDebug` stream of the Qt library -/
  stream : QDebugStream
  /-- `Keys.parseOptions(argList)`: the flags it leaves in `Keys` and the
  messages it emits -/
  parseOptions : List QString → (Key → Bool) × List Msg
  /-- `sharedMemory.attach()` -/
  attach : Bool
  /-- the bytes of the segment when the worker attaches -/
  segment : List Byte
  /-- the rounds of the controller, in order -/
  turns : List Turn
  /-- `QFile(inputFile).exists()` -/
  inputExists : Bool
  /-- `QFileInfo(outputFile).absoluteDir().exists()` -/
  outputDirExists : Bool
  /-- the collaborators of the one-shot `processFile` call -/
  env : FileEnv

/-- `semaphore1.acquire()` in round `t`: on success the segment holds what the
controller left in it. -/
def acquire (t : Turn) : M Bool := fun s =>
  Res.ok t.acquire
    { s with
      sharedMemory := if t.acquire then t.segment else s.sharedMemory
      trace := s.trace ++ [Event.acquire t.acquire] }

/-- The job descriptor read at lines 434-442: two strings decoded from a
buffer over a copy of the whole segment; the buffer is returned with them. -/
def readJob (mem : List Byte) : QString × QString × QBuffer :=
  let buffer := QBuffer.setData mem mem.length
  let r1 := readQString buffer
  let r2 := readQString r1.2
  (r1.1, r2.1, r2.2)

/-- The bytes of the segment once the log is written (lines 455-462): the log
is encoded at position 0 of the buffer, and `qMin(sharedMemory.size(), size)`
bytes of the buffer are copied to the segment. -/
def writeLog (mem : List Byte) (buffer : QBuffer) (log : QString) : List Byte :=
  let out := writeQString (buffer.seek 0) log
  memcpy mem out.data (min mem.length out.size)

/-- The `while (true)` loop of the worker (lines 429-466), one iteration per
round of the controller. -/
def workerLoop (keys : Key → Bool) : List Turn → M Unit
  | [] => fun s => Res.blocked s
  | t :: rest => do
    -- wait while 'gui' set paths to shared memory
    if !(← acquire t) then
      pure ()
    else
      -- read shared memory
      let job := readJob (← (fun s => Res.ok s.sharedMemory s))
      -- if both paths is empty - this is signal to stop 'cli'
      if job.1.isEmpty && job.2.1.isEmpty then
        release
      else
        (fun s => Res.ok () { s with appLog := QString.null })
        -- clean svg
        processFile keys t.env job.1 job.2.1
        -- write to shared memory
        (fun s => Res.ok () { s with sharedMemory := writeLog s.sharedMemory job.2.2 s.appLog })
        -- emit to 'gui' that file was cleaned
        release
        workerLoop keys rest

/-- The `--slave` branch of `main` (lines 408-467), built with `USE_IPC`;
`argList` still starts with `--slave`. -/
def slaveMain (sys : Sys) (argList : List QString) : M Int := do
  let id := argList.tail.headD QString.null
  let args := argList.tail.tail
  (fun s => Res.ok () { s with semaphore2 := true })
  (fun s => Res.ok ()
    { s with
      sharedMemory := if sys.attach then sys.segment else s.sharedMemory
      trace := s.trace ++ [Event.attach (QL1S "SvgCleanerMem_" ++ id) sys.attach] })
  (if !sys.attach then
    qFatal (QL1S "unable to attach to shared memory segment.")
   else pure ())
  (fun s => Res.ok () { s with handler := Handler.slaveMessageOutput })
  emitAll (sys.parseOptions args).2
  -- emit to 'gui' that 'cli' ready to clean files
  release
  workerLoop (sys.parseOptions args).1 sys.turns
  pure 0

/-- The one-shot branch of `main` (lines 470-487). -/
def oneShotMain (sys : Sys) (argList : List QString) : M Int := do
  (fun s => Res.ok () { s with handler := Handler.ownMessageOutput })
  let inputFile := argList.headD QString.null
  let outputFile := argList.tail.headD QString.null
  let args := argList.tail.tail
  (if !sys.inputExists then
    qFatal (QL1S "input file does not exist")
   else pure ())
  (if !sys.outputDirExists then
    qFatal (QL1S "output folder does not exist")
   else pure ())
  emitAll (sys.parseOptions args).2
  processFile (sys.parseOptions args).1 sys.env inputFile outputFile
  pure 0

/-- `main` (lines 381-490) on the arguments `argv` (`argv[0]` the executable
path), built with `USE_IPC`. -/
def main (sys : Sys) (argv : List QString) : M Int :=
  -- remove executable path
  let argList := argv.tail
  if contains argList (QL1S "-v") || contains argList (QL1S "--version") then do
    qDebug (sys.stream.ofChars (QL1S "0.7.0"))
    pure 0
  else if contains argList (QL1S "-h") || contains argList (QL1S "--help")
      || decide (argList.length < 2) then do
    showHelp sys.stream sys.table
    pure 0
  else if contains argList (QL1S "--info") && decide (argList.length = 2) then do
    showPresetInfo sys.stream sys.table (argList.getD 1 QString.null)
    pure 0
  else if (argList.headD QString.null).eq (QL1S "--slave") then
    slaveMain sys argList
  else
    oneShotMain sys argList

/-! ## The events of one `processFile` call as a list -/

/-- Replay of one event: a message goes through the message machinery, any
other event is appended to the trace. -/
def emit (e : Event) : M Unit :=
  match e with
  | Event.message m => qtMessage m
  | e => record e

/-- Replay of a list of events, in order. -/
def play : List Event → M Unit
  | [] => pure ()
  | e :: es => do
    emit e
    play es

/-- The events of a call of a cleaning method at call site `site`. -/
def passEvents (env : FileEnv) (site : Nat) (p : Pass) : List Event :=
  Event.pass p :: (env.passMsgs site).map Event.message

/-- The events of a guarded statement. -/
def gated (c : Bool) (l : List Event) : List Event := if c then l else []

/-- The events of lines 141-233 of `processFile` when no message ends the
process, statement by statement: loading the document and cleaning it. -/
def cleanEvents (keys : Key → Bool) (env : FileEnv) (inPath outPath : QString) :
    List Event :=
  [Event.processFile inPath outPath]
  ++ gated (!keys Key.ShortOutput)
      [Event.message ⟨QtMsgType.QtDebugMsg,
        QL1S ("The initial file size is: " ++ fmtU env.initialSize)⟩]
  ++ [Event.loadFile inPath]
  ++ (match env.loadError with
      | some e => [Event.message ⟨QtMsgType.QtFatalMsg, e⟩]
      | none => [])
  ++ gated env.svgElementIsNull [Event.message ⟨QtMsgType.QtFatalMsg, QL1S "invalid svg file"⟩]
  ++ [Event.calcElemAttrCount (QL1S "initial")]
  ++ env.calcInitial.map Event.message
  ++ passEvents env 0 Pass.convertEntityData
  ++ passEvents env 1 Pass.splitStyleAttributes
  ++ passEvents env 2 Pass.convertCDATAStyle
  ++ passEvents env 3 Pass.convertUnits
  ++ passEvents env 4 Pass.prepareDefs
  ++ passEvents env 5 Pass.fixWrongAttr
  ++ passEvents env 6 Pass.roundNumericAttributes
  ++ passEvents env 7 Pass.prepareLinkedStyles
  ++ passEvents env 8 Pass.convertColors
  ++ passEvents env 9 Pass.cleanSvgElementAttribute
  ++ gated (keys Key.CreateViewbox) (passEvents env 10 Pass.convertSizeToViewbox)
  ++ gated (keys Key.RemoveUnusedDefs) (passEvents env 11 Pass.removeUnusedDefs)
  ++ gated (keys Key.ApplyTransformsToDefs) (passEvents env 12 Pass.applyTransformToDefs)
  ++ gated (keys Key.RemoveNotAppliedAttributes)
      (passEvents env 13 Pass.removeUnusedDefsAttributes)
  ++ gated (keys Key.RemoveDuplicatedDefs) (passEvents env 14 Pass.removeDuplicatedDefs)
  ++ gated (keys Key.MergeGradients)
      (passEvents env 15 Pass.mergeGradients
        ++ passEvents env 16 Pass.mergeGradientsWithEqualStopElem)
  ++ passEvents env 17 Pass.removeElements
  ++ passEvents env 18 Pass.removeAttributes
  ++ passEvents env 19 Pass.removeElementsFinal
  ++ gated (keys Key.RemoveUnreferencedIds) (passEvents env 20 Pass.removeUnreferencedIds)
  ++ passEvents env 21 Pass.cleanPresentationAttributes
  ++ gated (keys Key.ApplyTransformsToShapes) (passEvents env 22 Pass.applyTransformToShapes)
  ++ gated (keys Key.RemoveOutsideElements) (passEvents env 23 Pass.calcElementsBoundingBox)
  ++ gated (keys Key.ConvertBasicShapes) (passEvents env 24 Pass.convertBasicShapes)
  ++ gated (keys Key.UngroupContainers)
      (passEvents env 25 Pass.ungroupAElement ++ passEvents env 26 Pass.ungroupSwitchElement
        ++ passEvents env 27 Pass.removeGroups)
  ++ gated (keys Key.GroupRemoveFill) (passEvents env 28 Pass.removeGroupFill)
  ++ gated (keys Key.PathRemoveFill) (passEvents env 29 Pass.removePathFill)
  ++ passEvents env 30 Pass.processPaths
  ++ gated (keys Key.ReplaceEqualPathsByUse) (passEvents env 31 Pass.replaceEqualPathsWithUse)
  ++ gated (keys Key.RemoveOutsideElements)
      (passEvents env 32 Pass.removeElementsOutsideTheViewbox)
  ++ gated (keys Key.ReplaceEqualEltsByUse) (passEvents env 33 Pass.replaceEqualElementsByUse)
  ++ gated (keys Key.RemoveNotAppliedAttributes)
      (passEvents env 34 Pass.moveStyleFromUsedElemToUse)
  ++ gated (keys Key.GroupTextStyles) (passEvents env 35 Pass.groupTextElementsStyles)
  ++ gated (keys Key.GroupElemByStyle) (passEvents env 36 Pass.groupElementsByStyles)
  ++ gated (keys Key.ApplyTransformsToDefs) (passEvents env 37 Pass.applyTransformToDefs)
  ++ gated (keys Key.TrimIds) (passEvents env 38 Pass.trimIds)
  ++ passEvents env 39 Pass.checkXlinkDeclaration
  ++ gated (keys Key.SortDefs) (passEvents env 40 Pass.sortDefs)
  ++ passEvents env 41 Pass.finalFixes
  ++ gated (keys Key.JoinStyleAttributes) (passEvents env 42 Pass.joinStyleAttr)

/-- The events of lines 236-250 of `processFile` when no message ends the
process: saving the file. -/
def saveEvents (keys : Key → Bool) (env : FileEnv) (outPath : QString) : List Event :=
  gated (!env.openOut)
      [Event.message ⟨QtMsgType.QtFatalMsg, QL1S "could not write output file"⟩]
  ++ [Event.writeFile outPath (if keys Key.CompactOutput then -1 else 1)]
  ++ gated (!keys Key.ShortOutput)
      [Event.message ⟨QtMsgType.QtDebugMsg,
        QL1S ("The final file size is: " ++ fmtU env.finalSize)⟩]
  ++ [Event.calcElemAttrCount (QL1S "final")]
  ++ env.calcFinal.map Event.message

/-- The events that `processFile` goes through when no message ends the
process; `processFile` is the replay of this list (`processFile_eq_play`). -/
def processFileEvents (keys : Key → Bool) (env : FileEnv) (inPath outPath : QString) :
    List Event :=
  cleanEvents keys env inPath outPath ++ saveEvents keys env outPath

/-! ## Vocabulary of the properties -/

/-- The cleaning methods called in a trace, in order. -/
def passesOf (tr : List Event) : List Pass :=
  tr.filterMap fun e => match e with
    | Event.pass p => some p
    | _ => none

/-- The messages of a trace, in order. -/
def messagesOf (tr : List Event) : List Msg :=
  tr.filterMap fun e => match e with
    | Event.message m => some m
    | _ => none

/-- The `processFile` calls of a trace, in order, as (input, output) pairs. -/
def callsOf (tr : List Event) : List (QString × QString) :=
  tr.filterMap fun e => match e with
    | Event.processFile i o => some (i, o)
    | _ => none

/-- The number of `semaphore1.acquire()` calls in a trace. -/
def acquiresOf (tr : List Event) : Nat :=
  tr.countP fun e => match e with
    | Event.acquire _ => true
    | _ => false

/-- The number of `semaphore2->release()` calls in a trace. -/
def releasesOf (tr : List Event) : Nat := tr.count Event.release

/-- No message of the list is fatal. -/
def noFatal (ms : List Msg) : Prop := ∀ m ∈ ms, m.type ≠ QtMsgType.QtFatalMsg

instance (ms : List Msg) : Decidable (noFatal ms) := by
  unfold noFatal; infer_instance

/-- No event of the list is a fatal message. -/
def quiet (tr : List Event) : Prop := noFatal (messagesOf tr)

/-- The document loads: `loadFile` returns true, the root element is found,
and neither the first count nor a cleaning method, at any of the 43 call
sites, emits a fatal message. -/
def FileEnv.cleans (env : FileEnv) : Prop :=
  env.loadError = none ∧ env.svgElementIsNull = false ∧ noFatal env.calcInitial
    ∧ ∀ i < 43, noFatal (env.passMsgs i)

instance (env : FileEnv) : Decidable env.cleans := by
  unfold FileEnv.cleans; infer_instance

/-- The call of `processFile` completes: the document loads and is cleaned,
the output file opens, and the last count emits no fatal message. -/
def FileEnv.completes (env : FileEnv) : Prop :=
  env.cleans ∧ env.openOut = true ∧ noFatal env.calcFinal

instance (env : FileEnv) : Decidable env.completes := by
  unfold FileEnv.completes; infer_instance

/-- The text that `slaveMessageOutput` adds to `appLog` for the messages of a
trace: every message followed by a newline. -/
def logUnits (tr : List Event) : List QChar :=
  (messagesOf tr).flatMap fun m => m.text.units ++ [(Fin.ofNat 10 : QChar)]

/-- The master sequence of the pass pipeline: every cleaning method with its
gate, `none` for a mandatory one. -/
def masterSequence : List (Pass × Option Key) :=
  [ (Pass.convertEntityData, none), (Pass.splitStyleAttributes, none),
    (Pass.convertCDATAStyle, none), (Pass.convertUnits, none),
    (Pass.prepareDefs, none), (Pass.fixWrongAttr, none),
    (Pass.roundNumericAttributes, none), (Pass.prepareLinkedStyles, none),
    (Pass.convertColors, none), (Pass.cleanSvgElementAttribute, none),
    (Pass.convertSizeToViewbox, some Key.CreateViewbox),
    (Pass.removeUnusedDefs, some Key.RemoveUnusedDefs),
    (Pass.applyTransformToDefs, some Key.ApplyTransformsToDefs),
    (Pass.removeUnusedDefsAttributes, some Key.RemoveNotAppliedAttributes),
    (Pass.removeDuplicatedDefs, some Key.RemoveDuplicatedDefs),
    (Pass.mergeGradients, some Key.MergeGradients),
    (Pass.mergeGradientsWithEqualStopElem, some Key.MergeGradients),
    (Pass.removeElements, none), (Pass.removeAttributes, none),
    (Pass.removeElementsFinal, none),
    (Pass.removeUnreferencedIds, some Key.RemoveUnreferencedIds),
    (Pass.cleanPresentationAttributes, none),
    (Pass.applyTransformToShapes, some Key.ApplyTransformsToShapes),
    (Pass.calcElementsBoundingBox, some Key.RemoveOutsideElements),
    (Pass.convertBasicShapes, some Key.ConvertBasicShapes),
    (Pass.ungroupAElement, some Key.UngroupContainers),
    (Pass.ungroupSwitchElement, some Key.UngroupContainers),
    (Pass.removeGroups, some Key.UngroupContainers),
    (Pass.removeGroupFill, some Key.GroupRemoveFill),
    (Pass.removePathFill, some Key.PathRemoveFill),
    (Pass.processPaths, none),
    (Pass.replaceEqualPathsWithUse, some Key.ReplaceEqualPathsByUse),
    (Pass.removeElementsOutsideTheViewbox, some Key.RemoveOutsideElements),
    (Pass.replaceEqualElementsByUse, some Key.ReplaceEqualEltsByUse),
    (Pass.moveStyleFromUsedElemToUse, some Key.RemoveNotAppliedAttributes),
    (Pass.groupTextElementsStyles, some Key.GroupTextStyles),
    (Pass.groupElementsByStyles, some Key.GroupElemByStyle),
    (Pass.applyTransformToDefs, some Key.ApplyTransformsToDefs),
    (Pass.trimIds, some Key.TrimIds),
    (Pass.checkXlinkDeclaration, none),
    (Pass.sortDefs, some Key.SortDefs),
    (Pass.finalFixes, none),
    (Pass.joinStyleAttr, some Key.JoinStyleAttributes) ]

/-- An entry of the master sequence is kept: always when it is mandatory, and
when its flag is true when it is gated. -/
def kept (keys : Key → Bool) (e : Pass × Option Key) : Bool :=
  match e.2 with
  | none => true
  | some k => keys k

/-- The master sequence filtered by its gates. -/
def filteredSequence (keys : Key → Bool) : List Pass :=
  (masterSequence.filter (kept keys)).map Prod.fst

/-- The seventeen mandatory passes, in the order of the pipeline. -/
def mandatoryPasses : List Pass :=
  [ Pass.convertEntityData, Pass.splitStyleAttributes, Pass.convertCDATAStyle,
    Pass.convertUnits, Pass.prepareDefs, Pass.fixWrongAttr, Pass.roundNumericAttributes,
    Pass.prepareLinkedStyles, Pass.convertColors, Pass.cleanSvgElementAttribute,
    Pass.removeElements, Pass.removeAttributes, Pass.removeElementsFinal,
    Pass.cleanPresentationAttributes, Pass.processPaths, Pass.checkXlinkDeclaration,
    Pass.finalFixes ]

/-- The dedup passes. -/
def dedupPasses : List Pass :=
  [ Pass.removeDuplicatedDefs, Pass.mergeGradients, Pass.mergeGradientsWithEqualStopElem,
    Pass.replaceEqualPathsWithUse, Pass.replaceEqualElementsByUse ]

/-- The log after the messages of a trace went through `slaveMessageOutput`,
starting from the log `log`. -/
def logAfter (log : QString) (tr : List Event) : QString :=
  (messagesOf tr).foldl (fun a m => a ++ (m.text ++ QL1S "\n")) log

/-- An event that `processFile` causes after its entry: a message, the loading
of the document, a count, a cleaning method, the write of the output file. -/
def inner (e : Event) : Bool :=
  match e with
  | Event.message _ => true
  | Event.loadFile _ => true
  | Event.calcElemAttrCount _ => true
  | Event.pass _ => true
  | Event.writeFile _ _ => true
  | _ => false

/-- Every event of the trace is a debug message: nothing is loaded, cleaned or
written, and no semaphore is touched. -/
def onlyDebug (tr : List Event) : Prop :=
  ∀ e ∈ tr, ∃ t, e = Event.message ⟨QtMsgType.QtDebugMsg, t⟩

/-- The job descriptor in the segment is the sentinel: both paths are empty
(the condition of line 445). -/
def isSentinel (segment : List Byte) : Bool :=
  (readJob segment).1.isEmpty && (readJob segment).2.1.isEmpty

/-- The paths of the job descriptor in the segment. -/
def jobPaths (segment : List Byte) : QString × QString :=
  ((readJob segment).1, (readJob segment).2.1)

/-- The shape of a worker run that started with the trace `base`, the handler
`slaveMessageOutput` installed and `semaphore2` set: while the process lives,
no fatal message was emitted; when it has ended, it ended in `exit(1)`, and
the trace ends with the one fatal message of the run and one release. -/
def fatalShape {α : Type} (base : List Event) (r : Res α) : Prop :=
  ∃ tr, r.proc.trace = base ++ tr ∧
    match r with
    | Res.ok _ s1 => quiet tr ∧ s1.handler = Handler.slaveMessageOutput ∧ s1.semaphore2 = true
    | Res.blocked _ => quiet tr
    | Res.exit c _ => c = 1 ∧ ∃ pre m, tr = pre ++ [Event.message m, Event.release]
        ∧ quiet pre ∧ m.type = QtMsgType.QtFatalMsg
    | Res.abort _ => False

/-- One table line of the usage text: two blanks, the key, blanks up to 35
characters, a blank, the description. -/
def usageLine (key desc : QString) : QString :=
  QString.mk ((QL1S "  ").units ++ key.units
    ++ List.replicate (35 - key.units.length) (Fin.ofNat 32 : QChar)
    ++ (QL1S " ").units ++ desc.units)

/-- The usage text, message by message: what `-h`, `--help` and a call with
fewer than two arguments are to print, written out from the tables of `Keys`
and the stream `q`. -/
def usageText (q : QDebugStream) (t : KeysTable) : List QString :=
  [ q.ofChars
      (QL1S "SVG Cleaner could help you to clean up your SVG files from unnecessary data."),
    q.ofChars (QL1S ""),
    q.ofChars (QL1S "Usage:"),
    q.ofChars (QL1S "  svgcleaner-cli <in-file> <out-file> [--preset=] [--options]"),
    q.ofChars (QL1S "Show options included in preset:"),
    q.ofChars (QL1S "  svgcleaner-cli --info --preset=<name>"),
    q.ofChars (QL1S ""),
    q.ofChars (QL1S "Presets:"),
    usageLine (QL1S "--preset=basic") (QL1S "Basic cleaning"),
    usageLine (QL1S "--preset=complete") (QL1S "Complete cleaning [default]"),
    usageLine (QL1S "--preset=extreme") (QL1S "Extreme cleaning"),
    q.ofChars (QL1S ""),
    q.ofChars (QL1S "Options:"),
    q.ofChars (QL1S ""),
    usageLine (QL1S "-h --help") (QL1S "Show this text"),
    usageLine (QL1S "-v --version") (QL1S "Show version"),
    q.ofChars (QL1S ""),
    q.ofChars (QL1S "Elements:") ]
  ++ t.elementsKeysId.map (fun key =>
      if key = Key.RemoveTinyGaussianBlur then
        usageLine (t.keyName key ++ QL1S "=<0..1.0>")
          (t.description key
            ++ (QL1S " [default: " ++ t.argDoubleText Key.RemoveTinyGaussianBlur ++ QL1S "]"))
      else usageLine (t.keyName key) (t.description key))
  ++ [q.ofChars (QL1S ""), q.ofChars (QL1S "Attributes:")]
  ++ t.attributesKeysId.map (fun key => usageLine (t.keyName key) (t.description key))
  ++ [q.ofChars (QL1S "Additional:")]
  ++ t.attributesUtilsKeysId.map (fun key => usageLine (t.keyName key) (t.description key))
  ++ [q.ofChars (QL1S ""), q.ofChars (QL1S "Paths:")]
  ++ t.pathsKeysId.map (fun key => usageLine (t.keyName key) (t.description key))
  ++ [q.ofChars (QL1S ""), q.ofChars (QL1S "Optimizations:")]
  ++ t.optimizationsKeysId.map (fun key =>
      if key = Key.TransformPrecision ∨ key = Key.AttributesPrecision
          ∨ key = Key.CoordsPrecision then
        usageLine (t.keyName key ++ QL1S "=<1..8>")
          (t.description key ++ (QL1S " [default: " ++ t.argDoubleText key ++ QL1S "]"))
      else usageLine (t.keyName key) (t.description key))
  ++ [q.ofChars (QL1S "Additional:")]
  ++ t.optimizationsUtilsKeysId.map (fun key => usageLine (t.keyName key) (t.description key))

/-- The text listed for one key of the preset `preset`: the name of the key,
followed by `=` and its number for the three precision keys and for the blur
threshold. -/
def listedKey (t : KeysTable) (preset : QString) (key : Key) : QString :=
  if key = Key.TransformPrecision ∨ key = Key.AttributesPrecision
      ∨ key = Key.CoordsPrecision then
    t.keyName key ++ QL1S "=" ++ t.intNumberText preset key
  else if key = Key.RemoveTinyGaussianBlur then
    t.keyName key ++ QL1S "=" ++ t.doubleNumberText preset key
  else t.keyName key

/-- The debug messages of a list of texts. -/
def debugMessages (l : List QString) : List Event :=
  l.map fun x => Event.message ⟨QtMsgType.QtDebugMsg, x⟩

/-! ## Sample inputs -/

/-- A sample option set: the flags `TrimIds`, `MergeGradients` and
`ShortOutput` are on, the others off. -/
def sampleKeys : Key → Bool := fun k =>
  decide (k = Key.TrimIds) || decide (k = Key.MergeGradients) || decide (k = Key.ShortOutput)

/-- Sample collaborators of a `processFile` call that completes: two counts
are reported and `convertUnits` warns once. -/
def sampleEnv : FileEnv :=
  { initialSize := 120
    loadError := none
    svgElementIsNull := false
    calcInitial := [⟨QtMsgType.QtDebugMsg, QL1S "elements: 3"⟩]
    passMsgs := fun i => if i = 3 then [⟨QtMsgType.QtWarningMsg, QL1S "bad unit"⟩] else []
    openOut := true
    finalSize := 80
    calcFinal := [⟨QtMsgType.QtDebugMsg, QL1S "elements: 2"⟩] }

/-- A segment of 64 bytes that starts with the given bytes. -/
def pad64 (l : List Byte) : List Byte := (l ++ List.replicate 64 (0 : Byte)).take 64

/-- A round of the controller with the job (`a.svg`, `b.svg`). -/
def sampleJob1 : Turn :=
  { acquire := true
    segment := pad64 (encodeQString (QL1S "a.svg") ++ encodeQString (QL1S "b.svg"))
    env := sampleEnv }

/-- A round of the controller with a job whose output path is empty. -/
def sampleJob2 : Turn :=
  { acquire := true
    segment := pad64 (encodeQString (QL1S "c.svg") ++ encodeQString (QL1S ""))
    env := sampleEnv }

/-- A round of the controller with the sentinel. -/
def sampleSentinel : Turn :=
  { acquire := true
    segment := pad64 (encodeQString QString.null ++ encodeQString QString.null)
    env := sampleEnv }

/-- Sample collaborators of a `processFile` call that fails: a count is
reported, then `convertUnits` emits a fatal message. -/
def crashEnv : FileEnv :=
  { sampleEnv with
    passMsgs := fun i => if i = 3 then [⟨QtMsgType.QtFatalMsg, QL1S "bad unit"⟩] else [] }

/-- A round of the controller with the job (`a.svg`, `b.svg`) that fails. -/
def crashJob : Turn := { sampleJob1 with env := crashEnv }

/-- Sample tables of `Keys`. -/
def sampleTable : KeysTable :=
  { keyName := fun k => if k = Key.TrimIds then QL1S "--trim-ids" else QL1S "--key"
    description := fun _ => QL1S "text"
    basicPresetKeys := [Key.TrimIds, Key.CoordsPrecision]
    completePresetKeys := [Key.TrimIds, Key.SortDefs]
    extremePresetKeys := [Key.TrimIds, Key.SortDefs, Key.GroupElemByStyle]
    elementsKeysId := [Key.RemoveTinyGaussianBlur, Key.ConvertBasicShapes]
    attributesKeysId := [Key.TrimIds]
    attributesUtilsKeysId := []
    pathsKeysId := []
    optimizationsKeysId := [Key.CoordsPrecision]
    optimizationsUtilsKeysId := []
    intNumberText := fun _ _ => QL1S "3"
    doubleNumberText := fun _ _ => QL1S "0.2"
    argDoubleText := fun _ => QL1S "0.2" }

/-- A sample `QDebug` stream: a `QString` operand between double quotes, a C
string operand as it is. -/
def sampleStream : QDebugStream :=
  { ofChars := fun s => s
    ofQString := fun s => QL1S "\"" ++ s ++ QL1S "\"" }

/-- A sample run of the worker: two jobs, the sentinel, and a round that is
never reached. -/
def sampleSys : Sys :=
  { table := sampleTable
    stream := sampleStream
    parseOptions := fun _ => (sampleKeys, [])
    attach := true
    segment := pad64 []
    turns := [sampleJob1, sampleJob2, sampleSentinel, sampleJob1]
    inputExists := true
    outputDirExists := true
    env := sampleEnv }

/-- A state of the worker after `Attached`: the handler is installed and
`semaphore2` is set; the log holds text of an earlier job. -/
def sampleWorker : Proc :=
  { Proc.start with
    handler := Handler.slaveMessageOutput
    semaphore2 := true
    appLog := QL1S "earlier job\n" }

/-- A sample run of the worker in which the second job fails. -/
def crashSys : Sys := { sampleSys with turns := [sampleJob1, crashJob, sampleJob1] }

/-- The option set with every flag off. -/
def noKeys : Key → Bool := fun _ => false

/-- The option set with the flag `CreateViewbox` on and every other flag off. -/
def viewboxKeys : Key → Bool := fun k => decide (k = Key.CreateViewbox)

/-- Sample collaborators of a `processFile` call in which the gated pass
`convertSizeToViewbox` (call site 10) emits a fatal message when it is called. -/
def gatedCrashEnv : FileEnv :=
  { sampleEnv with
    passMsgs := fun i => if i = 10 then [⟨QtMsgType.QtFatalMsg, QL1S "bad size"⟩] else [] }

/-! ## The state monad -/

theorem M.ext {α : Type} {m n : M α} (h : ∀ s, m s = n s) : m = n := funext h

theorem M.bind_def {α β : Type} (m : M α) (f : α → M β) (s : Proc) :
    (m >>= f) s = match m s with
      | Res.ok a s1 => f a s1
      | Res.exit c s1 => Res.exit c s1
      | Res.abort s1 => Res.abort s1
      | Res.blocked s1 => Res.blocked s1 := rfl

theorem M.pure_def {α : Type} (a : α) (s : Proc) : (pure a : M α) s = Res.ok a s := rfl

theorem M.bind_ok {α β : Type} {m : M α} {f : α → M β} {s s1 : Proc} {a : α}
    (h : m s = Res.ok a s1) : (m >>= f) s = f a s1 := by
  rw [M.bind_def, h]

theorem M.bind_exit {α β : Type} {m : M α} {f : α → M β} {s s1 : Proc} {c : Int}
    (h : m s = Res.exit c s1) : (m >>= f) s = Res.exit c s1 := by
  rw [M.bind_def, h]

theorem M.bind_abort {α β : Type} {m : M α} {f : α → M β} {s s1 : Proc}
    (h : m s = Res.abort s1) : (m >>= f) s = Res.abort s1 := by
  rw [M.bind_def, h]

theorem M.id_map {α : Type} (x : M α) : id <$> x = x := by
  apply M.ext; intro s
  show M.bind x (fun a => pure (id a)) s = x s
  unfold M.bind; cases h : x s <;> simp [M.pure_def]

theorem M.bind_assoc {α β γ : Type} (x : M α) (f : α → M β) (g : β → M γ) :
    x >>= f >>= g = x >>= fun a => f a >>= g := by
  apply M.ext; intro s
  simp only [M.bind_def]
  cases h : x s <;> simp

instance : LawfulMonad M :=
  LawfulMonad.mk' M M.id_map (fun _ _ => rfl) M.bind_assoc

/-! ## `processFile` is the replay of its event list -/

theorem play_nil : play [] = pure () := rfl

theorem play_cons (e : Event) (es : List Event) :
    play (e :: es) = emit e >>= fun _ => play es := rfl

theorem play_append (a b : List Event) : play (a ++ b) = play a >>= fun _ => play b := by
  induction a with
  | nil => simp [play_nil]
  | cons e es ih => simp [play_cons, ih]

theorem play_messages (ms : List Msg) : play (ms.map Event.message) = emitAll ms := by
  induction ms with
  | nil => rfl
  | cons m ms ih =>
    simp only [List.map_cons, play_cons, ih, emitAll, emit]

theorem play_gated (c : Bool) (l : List Event) :
    play (gated c l) = if c then play l else pure () := by
  cases c <;> simp [gated, play_nil]

theorem play_passEvents (env : FileEnv) (site : Nat) (p : Pass) :
    play (passEvents env site p) = callPass env site p := by
  simp only [passEvents, play_cons, play_messages, callPass, emit]

theorem processFile_eq_play (keys : Key → Bool) (env : FileEnv) (inPath outPath : QString) :
    processFile keys env inPath outPath = play (processFileEvents keys env inPath outPath) := by
  unfold processFile processFileEvents cleanEvents saveEvents
  cases env.loadError <;>
  simp only [play_append, play_gated, play_passEvents, play_cons, play_nil, play_messages,
    emit, bind_assoc, pure_bind, bind_pure, bind_pure_unit, qDebug, qFatal, Bool.not_eq_true']

/-! ## What one message does -/

/-- A message that is not fatal returns under every handler: the trace gets
the message, and under `slaveMessageOutput` the log gets its text and a
newline. -/
theorem qtMessage_ok (m : Msg) (s : Proc) (hm : m.type ≠ QtMsgType.QtFatalMsg) :
    ∃ s1, qtMessage m s = Res.ok () s1 ∧ s1.trace = s.trace ++ [Event.message m]
      ∧ s1.handler = s.handler ∧ s1.semaphore2 = s.semaphore2
      ∧ s1.sharedMemory = s.sharedMemory
      ∧ (s.handler = Handler.slaveMessageOutput →
          s1.appLog = s.appLog ++ (m.text ++ QL1S "\n")) := by
  obtain ⟨h, sem, log, mem, err, tr⟩ := s
  cases h
  · simp [qtMessage, M.bind, record, qtDefaultOutput, fprintfStderr, hm, bind, pure]
  · simp [qtMessage, M.bind, record, slaveMessageOutput, hm, bind, pure]
  · by_cases hw : m.type = QtMsgType.QtWarningMsg <;>
      simp [qtMessage, M.bind, record, ownMessageOutput, fprintfStderr, hm, hw, bind, pure]


/-- A fatal message under `slaveMessageOutput`, with `semaphore2` set: the
text is logged, `semaphore2` is released once, and the process exits with
status 1. -/
theorem qtMessage_fatal_slave (m : Msg) (s : Proc) (hm : m.type = QtMsgType.QtFatalMsg)
    (hh : s.handler = Handler.slaveMessageOutput) (hs : s.semaphore2 = true) :
    qtMessage m s = Res.exit 1
      { s with appLog := s.appLog ++ (m.text ++ QL1S "\n")
               trace := s.trace ++ [Event.message m, Event.release] } := by
  obtain ⟨h, sem, log, mem, err, tr⟩ := s
  simp only at hh hs
  subst hh hs
  simp [qtMessage, M.bind, record, slaveMessageOutput, release, exit, hm, bind, pure]

/-- A fatal message never returns: the process exits or aborts, and after the
message the trace holds at most one release. -/
theorem qtMessage_fatal (m : Msg) (s : Proc) (hm : m.type = QtMsgType.QtFatalMsg) :
    (∀ s1, qtMessage m s ≠ Res.ok () s1) ∧ (∀ s1, qtMessage m s ≠ Res.blocked s1)
      ∧ ((qtMessage m s).proc.trace = s.trace ++ [Event.message m]
        ∨ (qtMessage m s).proc.trace = s.trace ++ [Event.message m] ++ [Event.release]) := by
  obtain ⟨h, sem, log, mem, err, tr⟩ := s
  cases h
  · simp [qtMessage, M.bind, record, qtDefaultOutput, fprintfStderr, abort, hm, bind, pure,
      Res.proc]
  · cases sem <;>
      simp [qtMessage, M.bind, record, slaveMessageOutput, release, exit, hm, bind, pure,
        Res.proc]
  · simp [qtMessage, M.bind, record, ownMessageOutput, fprintfStderr, exit, hm, bind, pure,
      Res.proc]

theorem emit_message (m : Msg) : emit (Event.message m) = qtMessage m := rfl

theorem emit_record (e : Event) (s : Proc) (he : ∀ m, e ≠ Event.message m) :
    emit e s = Res.ok () { s with trace := s.trace ++ [e] } := by
  cases e <;> first | rfl | exact absurd rfl (he _)

/-! ## Replay of an event list -/

theorem messagesOf_append (a b : List Event) :
    messagesOf (a ++ b) = messagesOf a ++ messagesOf b := by
  simp [messagesOf, List.filterMap_append]

theorem passesOf_append (a b : List Event) : passesOf (a ++ b) = passesOf a ++ passesOf b := by
  simp [passesOf, List.filterMap_append]

theorem quiet_nil : quiet [] := by
  intro m hm; simp [messagesOf] at hm

theorem quiet_append {a b : List Event} : quiet (a ++ b) ↔ quiet a ∧ quiet b := by
  simp only [quiet, noFatal, messagesOf_append, List.mem_append]
  constructor
  · intro h; exact ⟨fun m hm => h m (Or.inl hm), fun m hm => h m (Or.inr hm)⟩
  · rintro ⟨h1, h2⟩ m (hm | hm)
    · exact h1 m hm
    · exact h2 m hm

theorem quiet_cons_message {m : Msg} {l : List Event} :
    quiet (Event.message m :: l) ↔ m.type ≠ QtMsgType.QtFatalMsg ∧ quiet l := by
  simp [quiet, noFatal, messagesOf]

theorem quiet_cons_other {e : Event} {l : List Event} (he : ∀ m, e ≠ Event.message m) :
    quiet (e :: l) ↔ quiet l := by
  cases e <;> first | exact absurd rfl (he _) | simp [quiet, noFatal, messagesOf]

theorem quiet_messages {ms : List Msg} : quiet (ms.map Event.message) ↔ noFatal ms := by
  induction ms with
  | nil => simp [quiet, noFatal, messagesOf]
  | cons m ms ih =>
    simp only [List.map_cons, quiet_cons_message, ih, noFatal, List.mem_cons, forall_eq_or_imp]

/-- The log after the messages of a trace went through `slaveMessageOutput`. -/
theorem logAfter_cons_message (log : QString) (m : Msg) (l : List Event) :
    logAfter log (Event.message m :: l) = logAfter (log ++ (m.text ++ QL1S "\n")) l := by
  simp [logAfter, messagesOf]

theorem logAfter_cons_other (log : QString) (e : Event) (l : List Event)
    (he : ∀ m, e ≠ Event.message m) : logAfter log (e :: l) = logAfter log l := by
  cases e <;> first | exact absurd rfl (he _) | simp [logAfter, messagesOf]

theorem logAfter_append (log : QString) (a b : List Event) :
    logAfter log (a ++ b) = logAfter (logAfter log a) b := by
  simp [logAfter, messagesOf_append, List.foldl_append]

/-- A list of events without a fatal message is replayed to its end, under
every handler: the trace gets exactly these events. -/
theorem play_quiet (l : List Event) (s : Proc) (hq : quiet l) :
    ∃ s1, play l s = Res.ok () s1 ∧ s1.trace = s.trace ++ l
      ∧ s1.handler = s.handler ∧ s1.semaphore2 = s.semaphore2
      ∧ s1.sharedMemory = s.sharedMemory
      ∧ (s.handler = Handler.slaveMessageOutput → s1.appLog = logAfter s.appLog l) := by
  induction l generalizing s with
  | nil => exact ⟨s, rfl, by simp, rfl, rfl, rfl, fun _ => rfl⟩
  | cons e es ih =>
    by_cases he : ∃ m, e = Event.message m
    · obtain ⟨m, rfl⟩ := he
      rw [quiet_cons_message] at hq
      obtain ⟨s1, h1, ht, hh, hs, hmem, hlog⟩ := qtMessage_ok m s hq.1
      obtain ⟨s2, h2, ht2, hh2, hs2, hmem2, hlog2⟩ := ih s1 hq.2
      refine ⟨s2, ?_, ?_, ?_, ?_, ?_, ?_⟩
      · rw [play_cons]; rw [M.bind_ok (show emit (Event.message m) s = Res.ok () s1 from h1)]
        exact h2
      · rw [ht2, ht]; simp
      · rw [hh2, hh]
      · rw [hs2, hs]
      · rw [hmem2, hmem]
      · intro hsl
        rw [hlog2 (hh.trans hsl), hlog hsl, logAfter_cons_message]
    · have he1 : ∀ m, e ≠ Event.message m := fun m hm => he ⟨m, hm⟩
      rw [quiet_cons_other he1] at hq
      obtain ⟨s2, h2, ht2, hh2, hs2, hmem2, hlog2⟩ :=
        ih { s with trace := s.trace ++ [e] } hq
      refine ⟨s2, ?_, ?_, hh2, hs2, hmem2, ?_⟩
      · rw [play_cons, M.bind_ok (emit_record e s he1)]
        exact h2
      · rw [ht2]; simp
      · intro hsl
        rw [hlog2 hsl, logAfter_cons_other _ _ _ he1]

/-- Every list of events is quiet or has a first fatal message. -/
theorem quiet_or_fatal (l : List Event) :
    quiet l ∨ ∃ pre m post, l = pre ++ Event.message m :: post ∧ quiet pre
      ∧ m.type = QtMsgType.QtFatalMsg := by
  induction l with
  | nil => exact Or.inl quiet_nil
  | cons e es ih =>
    by_cases he : ∃ m, e = Event.message m
    · obtain ⟨m, rfl⟩ := he
      by_cases hm : m.type = QtMsgType.QtFatalMsg
      · exact Or.inr ⟨[], m, es, rfl, quiet_nil, hm⟩
      · rcases ih with h | ⟨pre, m1, post, h1, h2, h3⟩
        · exact Or.inl (quiet_cons_message.2 ⟨hm, h⟩)
        · exact Or.inr ⟨Event.message m :: pre, m1, post, by rw [h1]; rfl,
            quiet_cons_message.2 ⟨hm, h2⟩, h3⟩
    · have he1 : ∀ m, e ≠ Event.message m := fun m hm => he ⟨m, hm⟩
      rcases ih with h | ⟨pre, m1, post, h1, h2, h3⟩
      · exact Or.inl ((quiet_cons_other he1).2 h)
      · exact Or.inr ⟨e :: pre, m1, post, by rw [h1]; rfl, (quiet_cons_other he1).2 h2, h3⟩

/-- Replay up to a first fatal message under `slaveMessageOutput`: the events
before it, the message, one release, and exit status 1; the segment is as it
was. -/
theorem play_fatal_slave (pre post : List Event) (m : Msg) (s : Proc) (hq : quiet pre)
    (hm : m.type = QtMsgType.QtFatalMsg) (hh : s.handler = Handler.slaveMessageOutput)
    (hs : s.semaphore2 = true) :
    ∃ s1, play (pre ++ Event.message m :: post) s = Res.exit 1 s1
      ∧ s1.trace = s.trace ++ pre ++ [Event.message m, Event.release]
      ∧ s1.appLog = logAfter s.appLog (pre ++ [Event.message m])
      ∧ s1.sharedMemory = s.sharedMemory := by
  obtain ⟨s0, h0, ht, hh0, hs0, hmem, hlog⟩ := play_quiet pre s hq
  have hf := qtMessage_fatal_slave m s0 hm (hh0.trans hh) (hs0.trans hs)
  refine ⟨{ s0 with appLog := s0.appLog ++ (m.text ++ QL1S "\n"),
                     trace := s0.trace ++ [Event.message m, Event.release] }, ?_, ?_, ?_, ?_⟩
  · rw [play_append, M.bind_ok h0, play_cons]
    exact M.bind_exit (show emit (Event.message m) s0 = _ from hf)
  · simp [ht]
  · simp only [logAfter_append, hlog hh]
    simp [logAfter, messagesOf]
  · simpa using hmem

/-- The trace after a replay, whatever its end: the old trace, the events up
to some point of the list, and at most one release. -/
theorem play_trace (l : List Event) (s : Proc) :
    ∃ k extra, (play l s).proc.trace = s.trace ++ l.take k ++ extra
      ∧ (extra = [] ∨ extra = [Event.release]) := by
  rcases quiet_or_fatal l with hq | ⟨pre, m, post, rfl, hq, hm⟩
  · obtain ⟨s1, h1, ht, -⟩ := play_quiet l s hq
    exact ⟨l.length, [], by rw [h1]; simp [Res.proc, ht], Or.inl rfl⟩
  · obtain ⟨s0, h0, ht, -⟩ := play_quiet pre s hq
    have hplay : play (pre ++ Event.message m :: post) s = qtMessage m s0 := by
      rw [play_append, M.bind_ok h0, play_cons, emit_message]
      have := qtMessage_fatal m s0 hm
      rw [M.bind_def]
      cases hr : qtMessage m s0 with
      | ok a s1 => exact absurd hr (this.1 s1)
      | exit c s1 => rfl
      | abort s1 => rfl
      | blocked s1 => rfl
    rcases (qtMessage_fatal m s0 hm).2.2 with h | h
    · refine ⟨pre.length + 1, [], ?_, Or.inl rfl⟩
      rw [hplay, h, ht]
      simp [List.take_append_eq_append_take]
    · refine ⟨pre.length + 1, [Event.release], ?_, Or.inr rfl⟩
      rw [hplay, h, ht]
      simp [List.take_append_eq_append_take]

/-! ## The passes of one `processFile` call -/

theorem passesOf_messages (ms : List Msg) : passesOf (ms.map Event.message) = [] := by
  induction ms with
  | nil => rfl
  | cons m ms ih => simp [passesOf] at ih ⊢

theorem passesOf_passEvents (env : FileEnv) (site : Nat) (p : Pass) :
    passesOf (passEvents env site p) = [p] := by
  have := passesOf_messages (env.passMsgs site)
  simp only [passesOf] at this
  simp [passEvents, passesOf, this]

theorem passesOf_gated (c : Bool) (l : List Event) :
    passesOf (gated c l) = if c then passesOf l else [] := by
  cases c <;> simp [gated, passesOf]

theorem filterMap_kept_some (keys : Key → Bool) (p : Pass) (k : Key)
    (l : List (Pass × Option Key)) :
    (((p, some k) :: l).filter (kept keys)).map Prod.fst
      = (if keys k then [p] else []) ++ (l.filter (kept keys)).map Prod.fst := by
  cases h : keys k <;> simp [List.filter_cons, kept, h]

theorem filterMap_kept_none (keys : Key → Bool) (p : Pass) (l : List (Pass × Option Key)) :
    (((p, none) :: l).filter (kept keys)).map Prod.fst
      = p :: (l.filter (kept keys)).map Prod.fst := by
  simp [List.filter_cons, kept]

/-- The cleaning methods on the way of `processFile` are the master sequence
filtered by its gates. -/
theorem passesOf_cleanEvents (keys : Key → Bool) (env : FileEnv) (inPath outPath : QString) :
    passesOf (cleanEvents keys env inPath outPath) = filteredSequence keys := by
  have h1 : ∀ inPath outPath, passesOf [Event.processFile inPath outPath] = [] := fun _ _ => rfl
  have h2 : ∀ inPath, passesOf [Event.loadFile inPath] = [] := fun _ => rfl
  have h3 : ∀ t, passesOf [Event.calcElemAttrCount t] = [] := fun _ => rfl
  have h4 : ∀ m, passesOf [Event.message m] = [] := fun _ => rfl
  have h5 : passesOf (match env.loadError with
      | some e => [Event.message ⟨QtMsgType.QtFatalMsg, e⟩]
      | none => []) = [] := by
    cases env.loadError <;> rfl
  unfold cleanEvents
  simp only [passesOf_append, passesOf_gated, passesOf_passEvents, passesOf_messages,
    h1, h2, h3, h4, h5]
  unfold filteredSequence masterSequence
  simp only [filterMap_kept_some, filterMap_kept_none, List.filter_nil, List.map_nil]
  cases keys Key.MergeGradients <;> cases keys Key.UngroupContainers <;> simp

theorem passesOf_saveEvents (keys : Key → Bool) (env : FileEnv) (outPath : QString) :
    passesOf (saveEvents keys env outPath) = [] := by
  have h1 : ∀ o i, passesOf [Event.writeFile o i] = [] := fun _ _ => rfl
  have h3 : ∀ t, passesOf [Event.calcElemAttrCount t] = [] := fun _ => rfl
  have h4 : ∀ m, passesOf [Event.message m] = [] := fun _ => rfl
  unfold saveEvents
  simp only [passesOf_append, passesOf_gated, passesOf_messages, h1, h3, h4]
  simp

theorem passesOf_eq_nil {l : List Event} : passesOf l = [] ↔ ∀ e ∈ l, ∀ p, e ≠ Event.pass p := by
  induction l with
  | nil => simp [passesOf]
  | cons e es ih =>
    cases e <;> simp [passesOf] at ih ⊢ <;> exact ih

theorem passesOf_take_nil {l : List Event} (h : passesOf l = []) (k : Nat) :
    passesOf (l.take k) = [] := by
  rw [passesOf_eq_nil] at h ⊢
  exact fun e he => h e (List.mem_of_mem_take he)

theorem quiet_gated {c : Bool} {l : List Event} : quiet (gated c l) ↔ (c = true → quiet l) := by
  cases c <;> simp [gated, quiet_nil]

theorem quiet_passEvents {env : FileEnv} {site : Nat} {p : Pass} :
    quiet (passEvents env site p) ↔ noFatal (env.passMsgs site) := by
  unfold passEvents
  rw [quiet_cons_other (by intro m h; cases h), quiet_messages]

theorem quiet_single {e : Event} (he : ∀ m, e ≠ Event.message m) : quiet [e] :=
  (quiet_cons_other he).2 quiet_nil

theorem quiet_debug (t : QString) : quiet [Event.message ⟨QtMsgType.QtDebugMsg, t⟩] :=
  quiet_cons_message.2 ⟨by simp, quiet_nil⟩

/-- When the document loads and is cleaned, no fatal message lies on the way
through lines 141-233. -/
theorem quiet_cleanEvents (keys : Key → Bool) (env : FileEnv) (inPath outPath : QString)
    (h : env.cleans) : quiet (cleanEvents keys env inPath outPath) := by
  obtain ⟨h1, h2, h3, h4⟩ := h
  have e1 : quiet [Event.processFile inPath outPath] := quiet_single (by intro m h; cases h)
  have e2 : quiet [Event.loadFile inPath] := quiet_single (by intro m h; cases h)
  have e3 : quiet [Event.calcElemAttrCount (QL1S "initial")] :=
    quiet_single (by intro m h; cases h)
  unfold cleanEvents
  rw [h1, h2]
  have p : ∀ i, i < 43 → (noFatal (env.passMsgs i) ↔ True) := fun i hi => iff_true_intro (h4 i hi)
  simp only [quiet_append, quiet_gated, quiet_passEvents, quiet_messages, quiet_debug, e1, e2,
    e3, h3, quiet_nil, implies_true, and_self, Bool.false_eq_true, false_implies,
    p 0 (by decide), p 1 (by decide), p 2 (by decide), p 3 (by decide), p 4 (by decide),
    p 5 (by decide), p 6 (by decide), p 7 (by decide), p 8 (by decide), p 9 (by decide),
    p 10 (by decide), p 11 (by decide), p 12 (by decide), p 13 (by decide), p 14 (by decide),
    p 15 (by decide), p 16 (by decide), p 17 (by decide), p 18 (by decide), p 19 (by decide),
    p 20 (by decide), p 21 (by decide), p 22 (by decide), p 23 (by decide), p 24 (by decide),
    p 25 (by decide), p 26 (by decide), p 27 (by decide), p 28 (by decide), p 29 (by decide),
    p 30 (by decide), p 31 (by decide), p 32 (by decide), p 33 (by decide), p 34 (by decide),
    p 35 (by decide), p 36 (by decide), p 37 (by decide), p 38 (by decide), p 39 (by decide),
    p 40 (by decide), p 41 (by decide), p 42 (by decide)]

/-- When the output file opens and the last count emits no fatal message, no
fatal message lies on the way through lines 236-250. -/
theorem quiet_saveEvents (keys : Key → Bool) (env : FileEnv) (outPath : QString)
    (h1 : env.openOut = true) (h2 : noFatal env.calcFinal) :
    quiet (saveEvents keys env outPath) := by
  have e1 : ∀ i, quiet [Event.writeFile outPath i] := fun i =>
    quiet_single (by intro m h; cases h)
  have e3 : quiet [Event.calcElemAttrCount (QL1S "final")] :=
    quiet_single (by intro m h; cases h)
  unfold saveEvents
  rw [h1]
  simp only [quiet_append, quiet_gated, quiet_messages, quiet_debug, e1, e3, h2, quiet_nil,
    implies_true, and_self, Bool.not_true, Bool.false_eq_true, false_implies]

theorem quiet_processFileEvents (keys : Key → Bool) (env : FileEnv) (inPath outPath : QString)
    (h : env.completes) : quiet (processFileEvents keys env inPath outPath) :=
  quiet_append.2 ⟨quiet_cleanEvents keys env inPath outPath h.1,
    quiet_saveEvents keys env outPath h.2.1 h.2.2⟩

/-- The trace of a `processFile` call whose document loads and is cleaned:
its cleaning methods are the master sequence filtered by its gates, also when
saving the file fails afterwards. -/
theorem processFile_trace_cleans (keys : Key → Bool) (env : FileEnv) (inPath outPath : QString)
    (s : Proc) (h : env.cleans) :
    ∃ tr, (processFile keys env inPath outPath s).proc.trace = s.trace ++ tr
      ∧ passesOf tr = filteredSequence keys := by
  obtain ⟨s1, h1, ht, -⟩ :=
    play_quiet _ s (quiet_cleanEvents keys env inPath outPath h)
  obtain ⟨k, extra, hk, hex⟩ := play_trace (saveEvents keys env outPath) s1
  refine ⟨cleanEvents keys env inPath outPath ++ (saveEvents keys env outPath).take k ++ extra,
    ?_, ?_⟩
  · rw [processFile_eq_play, processFileEvents, play_append, M.bind_ok h1, hk, ht]
    simp
  · rw [passesOf_append, passesOf_append, passesOf_cleanEvents,
      passesOf_take_nil (passesOf_saveEvents keys env outPath)]
    rcases hex with rfl | rfl <;> simp [passesOf]

/-- A `processFile` call that meets no fatal message returns, and its trace is
its event list. -/
theorem processFile_completes (keys : Key → Bool) (env : FileEnv) (inPath outPath : QString)
    (s : Proc) (h : env.completes) :
    ∃ s1, processFile keys env inPath outPath s = Res.ok () s1
      ∧ s1.trace = s.trace ++ processFileEvents keys env inPath outPath
      ∧ s1.handler = s.handler ∧ s1.semaphore2 = s.semaphore2
      ∧ s1.sharedMemory = s.sharedMemory
      ∧ (s.handler = Handler.slaveMessageOutput →
          s1.appLog = logAfter s.appLog (processFileEvents keys env inPath outPath)) := by
  rw [processFile_eq_play]
  exact play_quiet _ s (quiet_processFileEvents keys env inPath outPath h)

/-- The trace of any `processFile` call: the cleaning methods called are a
beginning of the master sequence filtered by its gates. -/
theorem processFile_trace_initial (keys : Key → Bool) (env : FileEnv) (inPath outPath : QString)
    (s : Proc) :
    ∃ tr, (processFile keys env inPath outPath s).proc.trace = s.trace ++ tr
      ∧ passesOf tr <+: filteredSequence keys := by
  obtain ⟨k, extra, hk, hex⟩ := play_trace (processFileEvents keys env inPath outPath) s
  refine ⟨(processFileEvents keys env inPath outPath).take k ++ extra, ?_, ?_⟩
  · rw [processFile_eq_play, hk]; simp
  · have hx : passesOf extra = [] := by rcases hex with rfl | rfl <;> rfl
    have hall : passesOf (processFileEvents keys env inPath outPath) = filteredSequence keys := by
      rw [processFileEvents, passesOf_append, passesOf_cleanEvents, passesOf_saveEvents]
      simp
    rw [passesOf_append, hx, List.append_nil, ← hall]
    exact List.IsPrefix.filterMap _ ( List.take_prefix k _)

theorem sampleEnv_completes : sampleEnv.completes := by decide

theorem filteredSequence_filter_mandatory (keys : Key → Bool) :
    (filteredSequence keys).filter (fun p => decide (p ∈ mandatoryPasses)) = mandatoryPasses := by
  have hgate : ∀ e ∈ masterSequence,
      (decide (e.1 ∈ mandatoryPasses) && kept keys e) = decide (e.1 ∈ mandatoryPasses) := by
    have hclosed : ∀ e ∈ masterSequence, e.2 ≠ none → decide (e.1 ∈ mandatoryPasses) = false := by
      decide
    intro e he
    cases h2 : e.2 with
    | none => simp [kept, h2]
    | some k => rw [hclosed e he (by simp [h2])]; rfl
  have hmand : (masterSequence.filter fun e => decide (e.1 ∈ mandatoryPasses)).map Prod.fst
      = mandatoryPasses := by decide
  unfold filteredSequence
  rw [List.filter_map, List.filter_filter]
  rw [List.filter_congr (q := fun e => decide (e.1 ∈ mandatoryPasses)) (by simpa using hgate)]
  exact hmand

theorem filteredSequence_all_false (keys : Key → Bool) (h : ∀ k, keys k = false) :
    filteredSequence keys = mandatoryPasses := by
  unfold filteredSequence masterSequence
  simp only [filterMap_kept_some, filterMap_kept_none, List.filter_nil, List.map_nil, h]
  rfl

/-- C1. For every option set, the cleaning methods that `processFile` calls
on a document that loads and is cleaned without a fatal message are the
43-entry master sequence filtered by its gates: a mandatory entry is always
kept, a gated entry is kept exactly when its flag is true. When nothing
fails while the file is saved either, `processFile` returns. -/
theorem processFile_passes_eq_filtered_master (keys : Key → Bool) (env : FileEnv)
    (inPath outPath : QString) (s : Proc) (h : env.cleans) :
    masterSequence.length = 43
      ∧ (∃ tr, (processFile keys env inPath outPath s).proc.trace = s.trace ++ tr
          ∧ passesOf tr = (masterSequence.filter (kept keys)).map Prod.fst)
      ∧ (env.completes → ∃ s1, processFile keys env inPath outPath s = Res.ok () s1) := by
  refine ⟨rfl, processFile_trace_cleans keys env inPath outPath s h, fun hc => ?_⟩
  obtain ⟨s1, h1, -⟩ := processFile_completes keys env inPath outPath s hc
  exact ⟨s1, h1⟩

theorem processFile_passes_eq_filtered_master_witness :
    sampleEnv.cleans
      ∧ masterSequence.length = 43
      ∧ (∃ tr, (processFile sampleKeys sampleEnv (QL1S "a.svg") (QL1S "b.svg")
            Proc.start).proc.trace = Proc.start.trace ++ tr
          ∧ passesOf tr = (masterSequence.filter (kept sampleKeys)).map Prod.fst)
      ∧ (sampleEnv.completes → ∃ s1,
          processFile sampleKeys sampleEnv (QL1S "a.svg") (QL1S "b.svg") Proc.start
            = Res.ok () s1) :=
  ⟨sampleEnv_completes.1,
    processFile_passes_eq_filtered_master sampleKeys sampleEnv (QL1S "a.svg") (QL1S "b.svg")
      Proc.start sampleEnv_completes.1⟩

theorem filteredSequence_head (keys : Key → Bool) :
    ∃ rest, filteredSequence keys
      = [Pass.convertEntityData, Pass.splitStyleAttributes, Pass.convertCDATAStyle,
          Pass.convertUnits, Pass.prepareDefs, Pass.fixWrongAttr, Pass.roundNumericAttributes,
          Pass.prepareLinkedStyles, Pass.convertColors, Pass.cleanSvgElementAttribute]
        ++ rest := by
  unfold filteredSequence masterSequence
  simp only [filterMap_kept_none]
  exact ⟨_, rfl⟩

/-- C6. For every option set and every `processFile` call, also one that a
fatal message cuts short, every dedup pass in the trace of the call
(`removeDuplicatedDefs`, `mergeGradients`, `mergeGradientsWithEqualStopElem`,
`replaceEqualPathsWithUse`, `replaceEqualElementsByUse`) comes after both
`convertUnits` and `roundNumericAttributes` in that trace. -/
theorem processFile_dedup_preceded_by_normalization (keys : Key → Bool) (env : FileEnv)
    (inPath outPath : QString) (s : Proc) :
    ∃ tr, (processFile keys env inPath outPath s).proc.trace = s.trace ++ tr
      ∧ ∀ pre p post, passesOf tr = pre ++ p :: post → p ∈ dedupPasses →
          Pass.convertUnits ∈ pre ∧ Pass.roundNumericAttributes ∈ pre := by
  obtain ⟨tr, h1, t, ht⟩ := processFile_trace_initial keys env inPath outPath s
  obtain ⟨rest, hrest⟩ := filteredSequence_head keys
  refine ⟨tr, h1, fun pre p post hp hd => ?_⟩
  rw [hp, hrest, List.append_assoc] at ht
  rcases List.append_eq_append_iff.1 ht with ⟨a, ha, hb⟩ | ⟨c, hc, -⟩
  · cases a with
    | nil =>
      rw [List.append_nil] at ha
      rw [← ha]; exact ⟨by decide, by decide⟩
    | cons x a =>
      simp only [List.cons_append, List.cons.injEq] at hb
      have hmem : p ∈ [Pass.convertEntityData, Pass.splitStyleAttributes,
          Pass.convertCDATAStyle, Pass.convertUnits, Pass.prepareDefs, Pass.fixWrongAttr,
          Pass.roundNumericAttributes, Pass.prepareLinkedStyles, Pass.convertColors,
          Pass.cleanSvgElementAttribute] := by
        rw [ha, hb.1]; simp
      have hno : ∀ q ∈ [Pass.convertEntityData, Pass.splitStyleAttributes,
          Pass.convertCDATAStyle, Pass.convertUnits, Pass.prepareDefs, Pass.fixWrongAttr,
          Pass.roundNumericAttributes, Pass.prepareLinkedStyles, Pass.convertColors,
          Pass.cleanSvgElementAttribute], q ∉ dedupPasses := by decide
      exact absurd hd (hno p hmem)
  · rw [hc]
    exact ⟨List.mem_append_left _ (by decide), List.mem_append_left _ (by decide)⟩

/-! ## One iteration of the worker loop -/

/-- The loop ends when the acquire fails. -/
theorem workerLoop_acquire_fails (keys : Key → Bool) (t : Turn) (rest : List Turn) (s : Proc)
    (ha : t.acquire = false) :
    workerLoop keys (t :: rest) s
      = Res.ok () { s with trace := s.trace ++ [Event.acquire false] } := by
  simp [workerLoop, acquire, M.bind, ha, bind, pure]

/-- The loop ends on the sentinel, after one release. -/
theorem workerLoop_sentinel (keys : Key → Bool) (t : Turn) (rest : List Turn) (s : Proc)
    (ha : t.acquire = true)
    (hj : ((readJob t.segment).1.isEmpty && (readJob t.segment).2.1.isEmpty) = true) :
    workerLoop keys (t :: rest) s
      = Res.ok () { s with sharedMemory := t.segment
                           trace := s.trace ++ [Event.acquire true, Event.release] } := by
  simp [workerLoop, acquire, M.bind, ha, hj, bind, pure, release, record]

/-- The loop on a job: the log is cleared, the file is processed, the log is
written to the segment, `semaphore2` is released, and the loop goes on. -/
theorem workerLoop_job (keys : Key → Bool) (t : Turn) (rest : List Turn) (s : Proc)
    (ha : t.acquire = true)
    (hj : ((readJob t.segment).1.isEmpty && (readJob t.segment).2.1.isEmpty) = false) :
    workerLoop keys (t :: rest) s
      = (processFile keys t.env (readJob t.segment).1 (readJob t.segment).2.1 >>= fun _ =>
          (fun s1 => Res.ok ()
            { s1 with sharedMemory :=
                writeLog s1.sharedMemory (readJob t.segment).2.2 s1.appLog }) >>= fun _ =>
          release >>= fun _ => workerLoop keys rest)
        { s with appLog := QString.null
                 sharedMemory := t.segment
                 trace := s.trace ++ [Event.acquire true] } := by
  simp [workerLoop, acquire, M.bind, ha, hj, bind, pure]

/-! ## The string format -/

theorem byte_val (x : Nat) : (Fin.ofNat x : Byte).val = x % 256 := rfl

theorem qchar_val (x : Nat) : (Fin.ofNat x : QChar).val = x % 65536 := rfl

theorem u32be_length (n : Nat) : (u32be n).length = 4 := rfl

theorem unitsBytes_length (u : List QChar) : (unitsBytes u).length = 2 * u.length := by
  induction u with
  | nil => rfl
  | cons c cs ih => simp [unitsBytes, unitBytes, ih]; omega

theorem bytesUnits_unitsBytes (u : List QChar) : bytesUnits (unitsBytes u) = u := by
  induction u with
  | nil => rfl
  | cons c cs ih =>
    show (Fin.ofNat ((Fin.ofNat (c.val / 256) : Byte).val * 256
        + (Fin.ofNat (c.val % 256) : Byte).val) : QChar) :: bytesUnits (unitsBytes cs) = c :: cs
    rw [ih]
    congr 1
    apply Fin.ext
    rw [qchar_val, byte_val, byte_val]
    have := c.isLt
    omega

theorem encodeQString_length (q : QString) : (encodeQString q).length = 4 + 2 * q.size := by
  cases q with
  | null => rfl
  | mk u => simp [encodeQString, u32be_length, unitsBytes_length, QString.size, QString.units]

theorem readUInt32_u32be (n : Nat) (rest : List Byte) :
    readUInt32 ⟨u32be n ++ rest, 0⟩ = (n % 4294967296, ⟨u32be n ++ rest, 4⟩) := by
  simp only [readUInt32, QBuffer.read, u32be, List.drop_zero, List.cons_append, List.nil_append,
    List.take_succ_cons, List.take_zero, List.length_cons, List.length_nil, byte_val]
  simp only [Prod.mk.injEq, Nat.zero_add, and_true]
  omega

/-- Decoding at the start of a buffer what `encodeQString` wrote there gives
the string back, whatever follows it. -/
theorem readQString_encodeQString (q : QString) (rest : List Byte)
    (hq : 2 * q.size < 4294967295) :
    readQString ⟨encodeQString q ++ rest, 0⟩
      = (q, ⟨encodeQString q ++ rest, (encodeQString q).length⟩) := by
  cases q with
  | null =>
    simp only [readQString, encodeQString, readUInt32_u32be]
    rfl
  | mk u =>
    simp only [QString.size, QString.units] at hq
    simp only [readQString, encodeQString, List.append_assoc, readUInt32_u32be]
    have hmod : 2 * u.length % 4294967296 = 2 * u.length := Nat.mod_eq_of_lt (by omega)
    rw [hmod]
    have hne : ¬ (2 * u.length = 4294967295) := by omega
    simp only [hne, if_false]
    by_cases hpos : 0 < 2 * u.length
    · have hodd : ¬ (2 * u.length % 2 = 1) := by omega
      have htake : (List.drop 4 (u32be (2 * u.length) ++ (unitsBytes u ++ rest))).take
          (2 * u.length) = unitsBytes u := by
        have : List.drop 4 (u32be (2 * u.length) ++ (unitsBytes u ++ rest))
            = unitsBytes u ++ rest := by
          rw [List.drop_append_of_le_length (by simp [u32be_length])]
          simp [u32be]
        rw [this, ← unitsBytes_length u, List.take_left]
      simp only [hpos, hodd, if_true, if_false, QBuffer.read, htake, unitsBytes_length,
        bytesUnits_unitsBytes, List.length_append, u32be_length]
    · have hu : u = [] := by
        cases u with
        | nil => rfl
        | cons c cs => simp at hpos
      subst hu
      simp [unitsBytes, u32be_length]

theorem readUInt32_data (b : QBuffer) : (readUInt32 b).2.data = b.data := by
  unfold readUInt32 QBuffer.read
  split <;> rename_i h <;> simp only [Prod.mk.injEq] at h <;> rw [← h.2]

theorem readQString_data (b : QBuffer) : (readQString b).2.data = b.data := by
  have h1 := readUInt32_data b
  unfold readQString
  generalize readUInt32 b = r at h1
  obtain ⟨n, b1⟩ := r
  simp only at h1 ⊢
  split
  · exact h1
  · split
    · split
      · exact h1
      · simp only [QBuffer.read]
        split <;> exact h1
    · exact h1

theorem readJob_data (mem : List Byte) : (readJob mem).2.2.data = mem := by
  simp [readJob, readQString_data, QBuffer.setData]

/-! ## Writing the log to the segment -/

/-- The segment after the log is written through a buffer that holds a copy of
it: the encoded log over what was there, cut to the size of the segment. -/
theorem writeLog_eq (mem : List Byte) (buffer : QBuffer) (log : QString)
    (hb : buffer.data = mem) :
    writeLog mem buffer log = (encodeQString log ++ mem.drop (encodeQString log).length).take
      mem.length := by
  simp only [writeLog, writeQString, QBuffer.write, QBuffer.seek, QBuffer.size, memcpy, hb,
    List.take_zero, List.nil_append, Nat.zero_add]
  have hlen : min mem.length
      (encodeQString log ++ List.drop (encodeQString log).length mem).length = mem.length := by
    simp only [List.length_append, List.length_drop]
    omega
  rw [hlen, List.drop_length, List.append_nil]

theorem writeLog_length (mem : List Byte) (buffer : QBuffer) (log : QString)
    (hb : buffer.data = mem) : (writeLog mem buffer log).length = mem.length := by
  rw [writeLog_eq mem buffer log hb]
  simp only [List.length_take, List.length_append, List.length_drop]
  omega

theorem writeLog_fits (mem : List Byte) (buffer : QBuffer) (log : QString)
    (hb : buffer.data = mem) (hfit : (encodeQString log).length ≤ mem.length) :
    writeLog mem buffer log = encodeQString log ++ mem.drop (encodeQString log).length := by
  rw [writeLog_eq mem buffer log hb]
  apply List.take_of_length_le
  simp only [List.length_append, List.length_drop]
  omega

theorem writeLog_overflow (mem : List Byte) (buffer : QBuffer) (log : QString)
    (hb : buffer.data = mem) (hbig : mem.length ≤ (encodeQString log).length) :
    writeLog mem buffer log = (encodeQString log).take mem.length := by
  rw [writeLog_eq mem buffer log hb]
  exact List.take_append_of_le_length hbig

theorem writeLog_frame (mem : List Byte) (buffer : QBuffer) (log : QString)
    (hb : buffer.data = mem) (i : Nat) (hi : (encodeQString log).length ≤ i) :
    (writeLog mem buffer log)[i]? = if i < mem.length then mem[i]? else none := by
  rw [writeLog_eq mem buffer log hb]
  by_cases hlt : i < mem.length
  · rw [if_pos hlt, List.getElem?_take_of_lt hlt, List.getElem?_append_right hi,
      List.getElem?_drop]
    congr 1
    omega
  · rw [if_neg hlt]
    apply List.getElem?_eq_none
    simp only [List.length_take]
    omega

/-! ## The events of one job -/

theorem QString.units_append (a b : QString) : (a ++ b).units = a.units ++ b.units := by
  cases a <;> cases b <;> rfl

theorem logAfter_units (log : QString) (l : List Event) :
    (logAfter log l).units = log.units ++ logUnits l := by
  unfold logAfter logUnits
  generalize messagesOf l = ms
  induction ms generalizing log with
  | nil => simp
  | cons m ms ih =>
    rw [List.foldl_cons, ih, QString.units_append, QString.units_append, List.flatMap_cons]
    simp only [List.append_assoc]
    rfl

theorem inner_messages (ms : List Msg) : ∀ e ∈ ms.map Event.message, inner e = true := by
  intro e he
  obtain ⟨m, -, rfl⟩ := List.mem_map.1 he
  rfl

theorem inner_passEvents (env : FileEnv) (site : Nat) (p : Pass) :
    ∀ e ∈ passEvents env site p, inner e = true := by
  intro e he
  rcases List.mem_cons.1 he with rfl | h
  · rfl
  · exact inner_messages _ e h

theorem inner_gated (c : Bool) (l : List Event) (h : ∀ e ∈ l, inner e = true) :
    ∀ e ∈ gated c l, inner e = true := by
  cases c
  · intro e he; simp [gated] at he
  · simpa [gated] using h

theorem inner_append {a b : List Event} (ha : ∀ e ∈ a, inner e = true)
    (hb : ∀ e ∈ b, inner e = true) : ∀ e ∈ a ++ b, inner e = true := by
  intro e he
  rcases List.mem_append.1 he with h | h
  · exact ha e h
  · exact hb e h

theorem inner_single {e : Event} (h : inner e = true) : ∀ x ∈ [e], inner x = true := by
  intro x hx
  rw [List.mem_singleton.1 hx]; exact h

/-- The event list of a `processFile` call: the entry, then only events that
`processFile` causes after it. -/
theorem processFileEvents_shape (keys : Key → Bool) (env : FileEnv) (inPath outPath : QString) :
    ∃ tl, processFileEvents keys env inPath outPath = Event.processFile inPath outPath :: tl
      ∧ ∀ e ∈ tl, inner e = true := by
  have hload : ∀ e ∈ (match env.loadError with
      | some e => [Event.message ⟨QtMsgType.QtFatalMsg, e⟩]
      | none => []), inner e = true := by
    cases env.loadError with
    | none => intro e he; cases he
    | some x => exact inner_single rfl
  unfold processFileEvents cleanEvents saveEvents
  simp only [List.append_assoc, List.singleton_append]
  refine ⟨_, rfl, ?_⟩
  repeat' first
    | exact hload
    | exact inner_messages _
    | exact inner_passEvents _ _ _
    | exact inner_single rfl
    | apply inner_gated
    | apply inner_append
    | (rw [← List.singleton_append]; apply inner_append)

theorem callsOf_inner {l : List Event} (h : ∀ e ∈ l, inner e = true) : callsOf l = [] := by
  induction l with
  | nil => rfl
  | cons e es ih =>
    have he := h e (List.mem_cons_self _ _)
    have ih1 := ih fun x hx => h x (List.mem_cons_of_mem _ hx)
    cases e <;> simp [inner] at he <;> simpa [callsOf] using ih1

theorem acquiresOf_inner {l : List Event} (h : ∀ e ∈ l, inner e = true) : acquiresOf l = 0 := by
  induction l with
  | nil => rfl
  | cons e es ih =>
    have he := h e (List.mem_cons_self _ _)
    have ih1 := ih fun x hx => h x (List.mem_cons_of_mem _ hx)
    cases e <;> simp [inner] at he <;> simpa [acquiresOf] using ih1

theorem releasesOf_inner {l : List Event} (h : ∀ e ∈ l, inner e = true) : releasesOf l = 0 := by
  induction l with
  | nil => rfl
  | cons e es ih =>
    have he := h e (List.mem_cons_self _ _)
    have ih1 := ih fun x hx => h x (List.mem_cons_of_mem _ hx)
    cases e <;> simp [inner] at he <;> simpa [releasesOf] using ih1

theorem callsOf_append (a b : List Event) : callsOf (a ++ b) = callsOf a ++ callsOf b := by
  simp [callsOf, List.filterMap_append]

theorem acquiresOf_append (a b : List Event) :
    acquiresOf (a ++ b) = acquiresOf a + acquiresOf b := by
  simp [acquiresOf, List.countP_append]

theorem releasesOf_append (a b : List Event) :
    releasesOf (a ++ b) = releasesOf a + releasesOf b := by
  simp [releasesOf, List.count_append]

theorem counts_processFileEvents (keys : Key → Bool) (env : FileEnv) (inPath outPath : QString) :
    callsOf (processFileEvents keys env inPath outPath) = [(inPath, outPath)]
      ∧ acquiresOf (processFileEvents keys env inPath outPath) = 0
      ∧ releasesOf (processFileEvents keys env inPath outPath) = 0 := by
  obtain ⟨tl, h, hin⟩ := processFileEvents_shape keys env inPath outPath
  rw [h]
  refine ⟨?_, ?_, ?_⟩
  · show (inPath, outPath) :: callsOf tl = _
    rw [callsOf_inner hin]
  · show acquiresOf tl = 0
    exact acquiresOf_inner hin
  · have : releasesOf (Event.processFile inPath outPath :: tl) = releasesOf tl := by
      simp [releasesOf]
    rw [this]; exact releasesOf_inner hin

/-! ## A job that completes, a job that fails -/

/-- One iteration of the loop on a job whose `processFile` call meets no fatal
message: the log is cleared, filled by the messages of this call, written to
the segment, `semaphore2` is released, and the loop goes on. -/
theorem workerLoop_job_quiet (keys : Key → Bool) (t : Turn) (rest : List Turn) (s : Proc)
    (ha : t.acquire = true) (hj : isSentinel t.segment = false)
    (hq : quiet (processFileEvents keys t.env (jobPaths t.segment).1 (jobPaths t.segment).2)) :
    ∃ s2, workerLoop keys (t :: rest) s = workerLoop keys rest s2
      ∧ s2.trace = s.trace ++ Event.acquire true ::
          (processFileEvents keys t.env (jobPaths t.segment).1 (jobPaths t.segment).2
            ++ [Event.release])
      ∧ s2.handler = s.handler ∧ s2.semaphore2 = s.semaphore2
      ∧ (s.handler = Handler.slaveMessageOutput → s2.appLog = logAfter QString.null
          (processFileEvents keys t.env (jobPaths t.segment).1 (jobPaths t.segment).2))
      ∧ s2.sharedMemory = writeLog t.segment (readJob t.segment).2.2 s2.appLog := by
  rw [workerLoop_job keys t rest s ha hj, processFile_eq_play]
  obtain ⟨s1, h1, ht, hh, hs, hmem, hlog⟩ := play_quiet _
    { s with appLog := QString.null, sharedMemory := t.segment,
             trace := s.trace ++ [Event.acquire true] } hq
  refine ⟨{ s1 with sharedMemory := writeLog s1.sharedMemory (readJob t.segment).2.2 s1.appLog,
                    trace := s1.trace ++ [Event.release] }, ?_, ?_, hh, hs, ?_, ?_⟩
  · exact (M.bind_ok h1).trans rfl
  · simp only [ht, jobPaths]
    simp
  · intro hsl
    exact hlog hsl
  · simp only [hmem]

/-- One iteration of the loop on a job whose `processFile` call meets a fatal
message, under `slaveMessageOutput` with `semaphore2` set: the process exits
with status 1 after one release, and the segment is as the controller left
it. -/
theorem workerLoop_job_fatal (keys : Key → Bool) (t : Turn) (rest : List Turn) (s : Proc)
    (pre post : List Event) (m : Msg)
    (ha : t.acquire = true) (hj : isSentinel t.segment = false)
    (hev : processFileEvents keys t.env (jobPaths t.segment).1 (jobPaths t.segment).2
      = pre ++ Event.message m :: post)
    (hq : quiet pre) (hm : m.type = QtMsgType.QtFatalMsg)
    (hh : s.handler = Handler.slaveMessageOutput) (hs : s.semaphore2 = true) :
    ∃ s1, workerLoop keys (t :: rest) s = Res.exit 1 s1
      ∧ s1.trace = s.trace ++ Event.acquire true :: (pre ++ [Event.message m, Event.release])
      ∧ s1.appLog = logAfter QString.null (pre ++ [Event.message m])
      ∧ s1.sharedMemory = t.segment := by
  rw [workerLoop_job keys t rest s ha hj, processFile_eq_play]
  simp only [jobPaths] at hev
  rw [hev]
  obtain ⟨s1, h1, ht, hlog, hmem⟩ := play_fatal_slave pre post m
    { s with appLog := QString.null, sharedMemory := t.segment,
             trace := s.trace ++ [Event.acquire true] } hq hm hh hs
  refine ⟨s1, M.bind_exit h1, ?_, hlog, hmem⟩
  rw [ht]; simp

/-! ## Jobs followed by the sentinel -/

/-- The loop on jobs that complete, followed by the sentinel: every job is
processed, the sentinel is acknowledged, and the loop is left; the rounds
after the sentinel are not looked at. -/
theorem workerLoop_jobs_sentinel (keys : Key → Bool) (jobs : List Turn) (sentinel : Turn)
    (rest : List Turn) (s : Proc)
    (hjobs : ∀ t ∈ jobs, t.acquire = true ∧ isSentinel t.segment = false ∧ t.env.completes)
    (hsent : sentinel.acquire = true ∧ isSentinel sentinel.segment = true) :
    ∃ s1 tr, workerLoop keys (jobs ++ sentinel :: rest) s = Res.ok () s1
      ∧ s1.trace = s.trace ++ tr
      ∧ callsOf tr = jobs.map (fun t => jobPaths t.segment)
      ∧ acquiresOf tr = jobs.length + 1 ∧ releasesOf tr = jobs.length + 1 := by
  induction jobs generalizing s with
  | nil =>
    refine ⟨_, [Event.acquire true, Event.release],
      workerLoop_sentinel keys sentinel rest s hsent.1 hsent.2, rfl, rfl, rfl, rfl⟩
  | cons t ts ih =>
    obtain ⟨ha, hj, hc⟩ := hjobs t (List.mem_cons_self _ _)
    obtain ⟨s2, h2, ht2, -⟩ := workerLoop_job_quiet keys t (ts ++ sentinel :: rest) s ha hj
      (quiet_processFileEvents keys t.env _ _ hc)
    obtain ⟨s1, tr, h1, ht1, hcalls, hacq, hrel⟩ :=
      ih s2 (fun x hx => hjobs x (List.mem_cons_of_mem _ hx))
    obtain ⟨c1, c2, c3⟩ :=
      counts_processFileEvents keys t.env (jobPaths t.segment).1 (jobPaths t.segment).2
    generalize processFileEvents keys t.env (jobPaths t.segment).1 (jobPaths t.segment).2
      = evs at c1 c2 c3 ht2
    refine ⟨s1, Event.acquire true :: (evs ++ [Event.release]) ++ tr, ?_, ?_, ?_, ?_, ?_⟩
    · rw [List.cons_append, h2, h1]
    · rw [ht1, ht2]; simp
    · rw [callsOf_append, hcalls, ← List.singleton_append, callsOf_append, callsOf_append, c1]
      rfl
    · rw [acquiresOf_append, hacq, ← List.singleton_append, acquiresOf_append,
        acquiresOf_append, c2]
      simp [acquiresOf]
      omega
    · rw [releasesOf_append, hrel, ← List.singleton_append, releasesOf_append,
        releasesOf_append, c3]
      simp [releasesOf]
      omega

/-- The `--slave` branch once the segment is attached: the handler is
installed with `semaphore2` set, the options are parsed, readiness is
signalled, and the loop runs. -/
theorem slaveMain_attached (sys : Sys) (argList : List QString) (s : Proc)
    (hattach : sys.attach = true) :
    slaveMain sys argList s
      = (play ((sys.parseOptions argList.tail.tail).2.map Event.message) >>= fun _ =>
          release >>= fun _ =>
          workerLoop (sys.parseOptions argList.tail.tail).1 sys.turns >>= fun _ => pure 0)
        { s with handler := Handler.slaveMessageOutput
                 semaphore2 := true
                 sharedMemory := sys.segment
                 trace := s.trace ++ [Event.attach
                   (QL1S "SvgCleanerMem_" ++ argList.tail.headD QString.null) true] } := by
  rw [play_messages]
  simp [slaveMain, M.bind, hattach, bind, pure]

theorem isSentinel_eq_false_iff (segment : List Byte) :
    isSentinel segment = false
      ↔ ((jobPaths segment).1.isEmpty = false ∨ (jobPaths segment).2.isEmpty = false) := by
  unfold isSentinel jobPaths
  cases (readJob segment).1.isEmpty <;> cases (readJob segment).2.1.isEmpty <;> simp

/-- C2. For every list of rounds in which the controller hands over N job
descriptors, none with both paths empty, and then the sentinel, with every
`job_ready` acquire succeeding and no fatal message, the worker calls
`processFile` exactly N times, on the decoded paths in list order, acquires
`job_ready` N+1 times, releases `result_ready` N+2 times, and `main` returns
0 without looking at the rounds after the sentinel. A descriptor counts as a
job exactly when at least one of its paths is not empty. -/
theorem slaveMain_jobs_then_sentinel (sys : Sys) (argList : List QString) (jobs : List Turn)
    (sentinel : Turn) (rest : List Turn) (s : Proc)
    (hattach : sys.attach = true)
    (hopts : noFatal (sys.parseOptions argList.tail.tail).2)
    (hturns : sys.turns = jobs ++ sentinel :: rest)
    (hjobs : ∀ t ∈ jobs, t.acquire = true ∧ isSentinel t.segment = false ∧ t.env.completes)
    (hsent : sentinel.acquire = true ∧ isSentinel sentinel.segment = true) :
    (∃ s1 tr, slaveMain sys argList s = Res.ok 0 s1 ∧ s1.trace = s.trace ++ tr
      ∧ callsOf tr = jobs.map (fun t => jobPaths t.segment)
      ∧ acquiresOf tr = jobs.length + 1
      ∧ releasesOf tr = jobs.length + 2)
    ∧ ∀ segment, isSentinel segment = false
        ↔ ((jobPaths segment).1.isEmpty = false ∨ (jobPaths segment).2.isEmpty = false) := by
  refine ⟨?_, isSentinel_eq_false_iff⟩
  rw [slaveMain_attached sys argList s hattach, hturns]
  obtain ⟨s0, h0, ht0, -⟩ := play_quiet _
    { s with handler := Handler.slaveMessageOutput, semaphore2 := true,
             sharedMemory := sys.segment,
             trace := s.trace ++ [Event.attach
               (QL1S "SvgCleanerMem_" ++ argList.tail.headD QString.null) true] }
    (quiet_messages.2 hopts)
  obtain ⟨s1, tr, h1, ht1, hcalls, hacq, hrel⟩ :=
    workerLoop_jobs_sentinel (sys.parseOptions argList.tail.tail).1 jobs sentinel rest
      { s0 with trace := s0.trace ++ [Event.release] } hjobs hsent
  have hm : ∀ l : List Msg, callsOf (l.map Event.message) = []
      ∧ acquiresOf (l.map Event.message) = 0 ∧ releasesOf (l.map Event.message) = 0 := fun l =>
    ⟨callsOf_inner (inner_messages l), acquiresOf_inner (inner_messages l),
      releasesOf_inner (inner_messages l)⟩
  obtain ⟨m1, m2, m3⟩ := hm (sys.parseOptions argList.tail.tail).2
  refine ⟨s1, [Event.attach (QL1S "SvgCleanerMem_" ++ argList.tail.headD QString.null) true]
    ++ (sys.parseOptions argList.tail.tail).2.map Event.message ++ [Event.release] ++ tr,
    ?_, ?_, ?_, ?_, ?_⟩
  · rw [M.bind_ok h0]
    have hrelease : release s0 = Res.ok () { s0 with trace := s0.trace ++ [Event.release] } :=
      rfl
    rw [M.bind_ok hrelease, M.bind_ok h1]
    rfl
  · rw [ht1]
    simp only [ht0]
    simp
  · simp only [callsOf_append, hcalls, m1]
    rfl
  · simp only [acquiresOf_append, hacq, m2]
    simp [acquiresOf]
  · simp only [releasesOf_append, hrel, m3]
    simp [releasesOf]
    omega

theorem slaveMain_jobs_then_sentinel_witness :
    (∀ t ∈ [sampleJob1, sampleJob2],
        t.acquire = true ∧ isSentinel t.segment = false ∧ t.env.completes)
      ∧ jobPaths sampleJob2.segment = (QL1S "c.svg", QL1S "")
      ∧ ((∃ s1 tr, slaveMain sampleSys [QL1S "--slave", QL1S "7"] Proc.start = Res.ok 0 s1
          ∧ s1.trace = Proc.start.trace ++ tr
          ∧ callsOf tr = [sampleJob1, sampleJob2].map (fun t => jobPaths t.segment)
          ∧ acquiresOf tr = [sampleJob1, sampleJob2].length + 1
          ∧ releasesOf tr = [sampleJob1, sampleJob2].length + 2)
        ∧ ∀ segment, isSentinel segment = false
          ↔ ((jobPaths segment).1.isEmpty = false ∨ (jobPaths segment).2.isEmpty = false)) := by
  have hjobs : ∀ t ∈ [sampleJob1, sampleJob2],
      t.acquire = true ∧ isSentinel t.segment = false ∧ t.env.completes := by
    intro t ht
    simp only [List.mem_cons, List.mem_singleton, List.not_mem_nil, or_false] at ht
    rcases ht with rfl | rfl
    · exact ⟨rfl, by decide, sampleEnv_completes⟩
    · exact ⟨rfl, by decide, sampleEnv_completes⟩
  exact ⟨hjobs, by decide,
    slaveMain_jobs_then_sentinel sampleSys [QL1S "--slave", QL1S "7"] [sampleJob1, sampleJob2]
      sampleSentinel [sampleJob1] Proc.start rfl (by intro m hm; cases hm) rfl hjobs
      ⟨rfl, by decide⟩⟩

/-! ## A fatal message ends the worker -/

theorem quiet_not_fatal_mem {tr : List Event} (hq : quiet tr) {m : Msg}
    (hm : Event.message m ∈ tr) : m.type ≠ QtMsgType.QtFatalMsg := by
  apply hq m
  simp only [messagesOf, List.mem_filterMap]
  exact ⟨Event.message m, hm, rfl⟩

theorem M.bind_blocked {α β : Type} {m : M α} {f : α → M β} {s s1 : Proc}
    (h : m s = Res.blocked s1) : (m >>= f) s = Res.blocked s1 := by
  rw [M.bind_def, h]

theorem fatalShape_bind {α β : Type} {base : List Event} {m : M α} {f : α → M β} {s : Proc}
    (h1 : fatalShape base (m s))
    (h2 : ∀ a s1, m s = Res.ok a s1 → fatalShape s1.trace (f a s1)) :
    fatalShape base ((m >>= f) s) := by
  cases hr : m s with
  | ok a s1 =>
    rw [hr] at h1
    obtain ⟨tr1, ht1, hq1, -, -⟩ := h1
    simp only [Res.proc] at ht1
    obtain ⟨tr2, ht2, hcase⟩ := h2 a s1 hr
    rw [M.bind_ok hr]
    revert ht2 hcase
    cases f a s1 with
    | ok b s2 =>
      intro ht2 hcase
      exact ⟨tr1 ++ tr2, by rw [ht2, ht1, List.append_assoc],
        quiet_append.2 ⟨hq1, hcase.1⟩, hcase.2⟩
    | blocked s2 =>
      intro ht2 hcase
      exact ⟨tr1 ++ tr2, by rw [ht2, ht1, List.append_assoc], quiet_append.2 ⟨hq1, hcase⟩⟩
    | exit c s2 =>
      intro ht2 hcase
      obtain ⟨hc, pre, msg, hpre, hqpre, hmsg⟩ := hcase
      exact ⟨tr1 ++ tr2, by rw [ht2, ht1, List.append_assoc], hc, tr1 ++ pre, msg,
        by rw [hpre, List.append_assoc], quiet_append.2 ⟨hq1, hqpre⟩, hmsg⟩
    | abort s2 =>
      intro ht2 hcase
      exact hcase.elim
  | exit c s1 => rw [M.bind_exit hr]; rw [hr] at h1; exact h1
  | abort s1 => rw [M.bind_abort hr]; rw [hr] at h1; exact h1
  | blocked s1 => rw [M.bind_blocked hr]; rw [hr] at h1; exact h1

/-- A run that has the shape from a longer trace has it from a shorter one,
when the events between them are quiet. -/
theorem fatalShape_extend {α : Type} {base : List Event} (tr0 : List Event) {r : Res α}
    (h : fatalShape (base ++ tr0) r) (hq : quiet tr0) : fatalShape base r := by
  obtain ⟨tr, ht, hcase⟩ := h
  refine ⟨tr0 ++ tr, by rw [ht, List.append_assoc], ?_⟩
  cases r with
  | ok a s1 => exact ⟨quiet_append.2 ⟨hq, hcase.1⟩, hcase.2⟩
  | blocked s1 => exact quiet_append.2 ⟨hq, hcase⟩
  | exit c s1 =>
    obtain ⟨hc, pre, msg, hpre, hqpre, hmsg⟩ := hcase
    exact ⟨hc, tr0 ++ pre, msg, by rw [hpre, List.append_assoc],
      quiet_append.2 ⟨hq, hqpre⟩, hmsg⟩
  | abort s1 => exact hcase.elim

/-- A replay under `slaveMessageOutput` with `semaphore2` set has the shape. -/
theorem fatalShape_play (l : List Event) (s : Proc)
    (hh : s.handler = Handler.slaveMessageOutput) (hs : s.semaphore2 = true) :
    fatalShape s.trace (play l s) := by
  rcases quiet_or_fatal l with hq | ⟨pre, m, post, rfl, hq, hm⟩
  · obtain ⟨s1, h1, ht, hh1, hs1, -⟩ := play_quiet l s hq
    rw [h1]
    exact ⟨l, ht, hq, hh1.trans hh, hs1.trans hs⟩
  · obtain ⟨s1, h1, ht, -⟩ := play_fatal_slave pre post m s hq hm hh hs
    rw [h1]
    exact ⟨pre ++ [Event.message m, Event.release], by simp [Res.proc, ht], rfl, pre, m, rfl,
      hq, hm⟩

/-- A step that returns and adds quiet events to the trace, with the handler
and `semaphore2` kept, has the shape. -/
theorem fatalShape_ok {α : Type} (a : α) (s s1 : Proc) (tr : List Event)
    (ht : s1.trace = s.trace ++ tr) (hq : quiet tr)
    (hh : s1.handler = Handler.slaveMessageOutput) (hs : s1.semaphore2 = true) :
    fatalShape s.trace (Res.ok a s1) :=
  ⟨tr, ht, hq, hh, hs⟩

/-- A change of the state that keeps the trace, and what follows it, have the
shape when what follows has it. -/
theorem fatalShape_update_then {α : Type} (g : Proc → Proc) (k : M α) (s : Proc)
    (hg : (g s).trace = s.trace) (h : fatalShape (g s).trace (k (g s))) :
    fatalShape s.trace (((fun s1 => Res.ok () (g s1)) >>= fun _ => k) s) := by
  rw [← hg]
  exact h

/-- A release and what follows it have the shape when what follows has it. -/
theorem fatalShape_release_then {α : Type} (k : M α) (s : Proc)
    (h : fatalShape ({ s with trace := s.trace ++ [Event.release] } : Proc).trace
      (k { s with trace := s.trace ++ [Event.release] })) :
    fatalShape s.trace ((release >>= fun _ => k) s) := by
  have hrel : release s = Res.ok () { s with trace := s.trace ++ [Event.release] } := rfl
  rw [M.bind_ok hrel]
  exact fatalShape_extend [Event.release] h (quiet_single (by intro m h; cases h))

/-- The loop under `slaveMessageOutput` with `semaphore2` set has the shape,
whatever the controller and the jobs do. -/
theorem fatalShape_workerLoop (keys : Key → Bool) (turns : List Turn) (s : Proc)
    (hh : s.handler = Handler.slaveMessageOutput) (hs : s.semaphore2 = true) :
    fatalShape s.trace (workerLoop keys turns s) := by
  induction turns generalizing s with
  | nil => exact ⟨[], by simp [workerLoop, Res.proc], quiet_nil⟩
  | cons t rest ih =>
    by_cases ha : t.acquire = true
    · by_cases hj : isSentinel t.segment = true
      · rw [workerLoop_sentinel keys t rest s ha hj]
        exact fatalShape_ok () s _ [Event.acquire true, Event.release] rfl
          ((quiet_cons_other (by intro m h; cases h)).2
            (quiet_single (by intro m h; cases h))) hh hs
      · have hj1 : isSentinel t.segment = false := by simpa using hj
        rw [workerLoop_job keys t rest s ha hj1, processFile_eq_play]
        apply fatalShape_extend [Event.acquire true] _
          (quiet_single (by intro m h; cases h))
        generalize processFileEvents keys t.env (readJob t.segment).1 (readJob t.segment).2.1
          = evs
        generalize hs0 : ({ s with appLog := QString.null,
                                   sharedMemory := t.segment,
                                   trace := s.trace ++ [Event.acquire true] } : Proc) = s0
        have hh0 : s0.handler = Handler.slaveMessageOutput := by rw [← hs0]; exact hh
        have hsem0 : s0.semaphore2 = true := by rw [← hs0]; exact hs
        have htr0 : s.trace ++ [Event.acquire true] = s0.trace := by rw [← hs0]
        rw [htr0]
        apply fatalShape_bind (fatalShape_play evs s0 hh0 hsem0)
        intro _ s2 h2
        obtain ⟨tr2, -, -, hh2, hs2⟩ := (h2 ▸ fatalShape_play evs s0 hh0 hsem0 :
          fatalShape _ (Res.ok () s2 : Res Unit))
        generalize (readJob t.segment).2.2 = buf
        refine fatalShape_update_then
          (fun s1 => { s1 with sharedMemory := writeLog s1.sharedMemory buf s1.appLog })
          _ s2 rfl ?_
        exact fatalShape_release_then _ _ (ih _ hh2 hs2)
    · have ha1 : t.acquire = false := by simpa using ha
      rw [workerLoop_acquire_fails keys t rest s ha1]
      exact fatalShape_ok () s _ [Event.acquire false] rfl
        (quiet_single (by intro m h; cases h)) hh hs

/-- The `--slave` branch has the shape once the segment is attached. -/
theorem fatalShape_slaveMain (sys : Sys) (argList : List QString) (s : Proc)
    (hattach : sys.attach = true) :
    fatalShape (s.trace ++ [Event.attach
        (QL1S "SvgCleanerMem_" ++ argList.tail.headD QString.null) true])
      (slaveMain sys argList s) := by
  rw [slaveMain_attached sys argList s hattach]
  generalize hs0 : ({ s with handler := Handler.slaveMessageOutput,
                             semaphore2 := true,
                             sharedMemory := sys.segment,
                             trace := s.trace ++ [Event.attach
                               (QL1S "SvgCleanerMem_" ++ argList.tail.headD QString.null)
                               true] } : Proc) = s0
  have hh0 : s0.handler = Handler.slaveMessageOutput := by rw [← hs0]
  have hsem0 : s0.semaphore2 = true := by rw [← hs0]
  have htr0 : s.trace ++ [Event.attach
      (QL1S "SvgCleanerMem_" ++ argList.tail.headD QString.null) true] = s0.trace := by
    rw [← hs0]
  rw [htr0]
  apply fatalShape_bind (fatalShape_play _ s0 hh0 hsem0)
  intro _ s1 h1
  obtain ⟨tr1, -, -, hh1, hs1⟩ := (h1 ▸ fatalShape_play _ s0 hh0 hsem0 :
    fatalShape _ (Res.ok () s1 : Res Unit))
  apply fatalShape_release_then
  generalize hs2 : ({ s1 with trace := s1.trace ++ [Event.release] } : Proc) = s2
  have hh2 : s2.handler = Handler.slaveMessageOutput := by rw [← hs2]; exact hh1
  have hsem2 : s2.semaphore2 = true := by rw [← hs2]; exact hs1
  apply fatalShape_bind (fatalShape_workerLoop _ _ s2 hh2 hsem2)
  intro _ s3 h3
  obtain ⟨tr3, -, -, hh3, hs3⟩ := (h3 ▸ fatalShape_workerLoop _ _ s2 hh2 hsem2 :
    fatalShape _ (Res.ok () s3 : Res Unit))
  exact fatalShape_ok 0 s3 s3 [] (by simp) quiet_nil hh3 hs3

/-- In a run that has the shape, what follows a fatal message in the trace is
one release, and the process has exited with status 1. -/
theorem fatalShape_after_fatal {α : Type} {base : List Event} {r : Res α}
    (h : fatalShape base r) (pre post : List Event) (m : Msg)
    (ht : r.proc.trace = base ++ (pre ++ Event.message m :: post))
    (hm : m.type = QtMsgType.QtFatalMsg) :
    post = [Event.release] ∧ ∃ s1, r = Res.exit 1 s1 := by
  obtain ⟨tr, htr, hcase⟩ := h
  have heq : tr = pre ++ Event.message m :: post := List.append_cancel_left (htr.symm.trans ht)
  have hmem : Event.message m ∈ tr := by rw [heq]; simp
  cases r with
  | ok a s1 => exact absurd hm (quiet_not_fatal_mem hcase.1 hmem)
  | blocked s1 => exact absurd hm (quiet_not_fatal_mem hcase hmem)
  | abort s1 => exact hcase.elim
  | exit c s1 =>
    obtain ⟨hc, pre1, m1, hpre, hq, -⟩ := hcase
    refine ⟨?_, s1, by rw [hc]⟩
    rw [heq] at hpre
    rcases List.append_eq_append_iff.1 hpre with ⟨a, ha, hb⟩ | ⟨c1, hc1, hb⟩
    · cases a with
      | nil =>
        simp only [List.nil_append, List.cons.injEq] at hb
        exact hb.2
      | cons x a =>
        simp only [List.cons_append, List.cons.injEq] at hb
        have : Event.message m ∈ pre1 := by rw [ha, ← hb.1]; simp
        exact absurd hm (quiet_not_fatal_mem hq this)
    · cases c1 with
      | nil =>
        simp only [List.nil_append, List.cons.injEq] at hb
        exact hb.2.symm
      | cons x c1 =>
        simp only [List.cons_append, List.cons.injEq] at hb
        obtain ⟨-, hb2⟩ := hb
        cases c1 with
        | nil => simp at hb2
        | cons y c2 => simp at hb2

/-! ## The claims on the worker protocol -/

/-- C3. In persistent-worker mode, in every state with `slaveMessageOutput`
installed and `semaphore2` set, a fatal message logs its text, releases
`result_ready` once and ends the process with exit status 1; and in every run
of the worker that attached to the segment, whatever the controller and the
jobs do, what follows a fatal message in the trace is that one release and
nothing else (no acquire, no `processFile`, no second release), the process
having exited with status 1. -/
theorem slave_fatal_releases_once_then_exits (sys : Sys) (argList : List QString) (s : Proc)
    (hattach : sys.attach = true) :
    (∀ (w : Proc) (text : QString), w.handler = Handler.slaveMessageOutput →
        w.semaphore2 = true →
        qFatal text w = Res.exit 1
          { w with appLog := w.appLog ++ (text ++ QL1S "\n")
                   trace := w.trace
                     ++ [Event.message ⟨QtMsgType.QtFatalMsg, text⟩, Event.release] })
    ∧ ∀ (pre post : List Event) (m : Msg),
        (slaveMain sys argList s).proc.trace = s.trace ++ (pre ++ Event.message m :: post) →
        m.type = QtMsgType.QtFatalMsg →
        post = [Event.release] ∧ ∃ s1, slaveMain sys argList s = Res.exit 1 s1 := by
  refine ⟨fun w text hh hs => qtMessage_fatal_slave ⟨QtMsgType.QtFatalMsg, text⟩ w rfl hh hs,
    fun pre post m ht hm => ?_⟩
  exact fatalShape_after_fatal
    (fatalShape_extend _ (fatalShape_slaveMain sys argList s hattach)
      (quiet_single (by intro m h; cases h))) pre post m ht hm

theorem slave_fatal_releases_once_then_exits_witness :
    crashSys.attach = true
    ∧ (∀ (w : Proc) (text : QString), w.handler = Handler.slaveMessageOutput →
        w.semaphore2 = true →
        qFatal text w = Res.exit 1
          { w with appLog := w.appLog ++ (text ++ QL1S "\n")
                   trace := w.trace
                     ++ [Event.message ⟨QtMsgType.QtFatalMsg, text⟩, Event.release] })
    ∧ ∀ (pre post : List Event) (m : Msg),
        (slaveMain crashSys [QL1S "--slave", QL1S "7"] Proc.start).proc.trace
          = Proc.start.trace ++ (pre ++ Event.message m :: post) →
        m.type = QtMsgType.QtFatalMsg →
        post = [Event.release]
          ∧ ∃ s1, slaveMain crashSys [QL1S "--slave", QL1S "7"] Proc.start = Res.exit 1 s1 :=
  ⟨rfl, slave_fatal_releases_once_then_exits crashSys [QL1S "--slave", QL1S "7"] Proc.start rfl⟩

/-- C7, as the code has it. When the `processFile` call of a job meets a fatal
message in persistent-worker mode, the lines emitted before it and the fatal
reason are in the log of the process, `result_ready` is released once and the
process exits with status 1; the segment is not written: it holds the bytes
the controller left in it, not the log. -/
theorem workerLoop_fatal_job_leaves_segment (keys : Key → Bool) (t : Turn) (rest : List Turn)
    (s : Proc) (pre post : List Event) (m : Msg)
    (ha : t.acquire = true) (hj : isSentinel t.segment = false)
    (hev : processFileEvents keys t.env (jobPaths t.segment).1 (jobPaths t.segment).2
      = pre ++ Event.message m :: post)
    (hq : quiet pre) (hm : m.type = QtMsgType.QtFatalMsg)
    (hh : s.handler = Handler.slaveMessageOutput) (hs : s.semaphore2 = true) :
    ∃ s1, workerLoop keys (t :: rest) s = Res.exit 1 s1
      ∧ s1.trace = s.trace ++ Event.acquire true :: (pre ++ [Event.message m, Event.release])
      ∧ s1.appLog.units = logUnits (pre ++ [Event.message m])
      ∧ s1.sharedMemory = t.segment := by
  obtain ⟨s1, h1, ht, hlog, hmem⟩ :=
    workerLoop_job_fatal keys t rest s pre post m ha hj hev hq hm hh hs
  refine ⟨s1, h1, ht, ?_, hmem⟩
  rw [hlog, logAfter_units]
  rfl

/-- The events of the sample job that fails, up to the fatal message. -/
theorem crashJob_events :
    processFileEvents sampleKeys crashJob.env (jobPaths crashJob.segment).1
        (jobPaths crashJob.segment).2
      = [Event.processFile (QL1S "a.svg") (QL1S "b.svg"), Event.loadFile (QL1S "a.svg"),
          Event.calcElemAttrCount (QL1S "initial"),
          Event.message ⟨QtMsgType.QtDebugMsg, QL1S "elements: 3"⟩,
          Event.pass Pass.convertEntityData, Event.pass Pass.splitStyleAttributes,
          Event.pass Pass.convertCDATAStyle, Event.pass Pass.convertUnits]
        ++ Event.message ⟨QtMsgType.QtFatalMsg, QL1S "bad unit"⟩ ::
          (processFileEvents sampleKeys crashJob.env (QL1S "a.svg") (QL1S "b.svg")).drop 9 := by
  have hp : jobPaths crashJob.segment = (QL1S "a.svg", QL1S "b.svg") := by decide
  rw [hp]
  rfl

theorem crashJob_pre_quiet :
    quiet [Event.processFile (QL1S "a.svg") (QL1S "b.svg"), Event.loadFile (QL1S "a.svg"),
      Event.calcElemAttrCount (QL1S "initial"),
      Event.message ⟨QtMsgType.QtDebugMsg, QL1S "elements: 3"⟩,
      Event.pass Pass.convertEntityData, Event.pass Pass.splitStyleAttributes,
      Event.pass Pass.convertCDATAStyle, Event.pass Pass.convertUnits] := by
  intro m hm
  simp only [messagesOf, List.filterMap_cons, List.filterMap_nil, List.mem_singleton] at hm
  rw [hm]
  decide

theorem workerLoop_fatal_job_leaves_segment_witness :
    crashJob.acquire = true ∧ isSentinel crashJob.segment = false
      ∧ sampleWorker.handler = Handler.slaveMessageOutput ∧ sampleWorker.semaphore2 = true
      ∧ ∃ s1, workerLoop sampleKeys [crashJob] sampleWorker = Res.exit 1 s1
        ∧ s1.trace = sampleWorker.trace ++ Event.acquire true ::
            ([Event.processFile (QL1S "a.svg") (QL1S "b.svg"), Event.loadFile (QL1S "a.svg"),
              Event.calcElemAttrCount (QL1S "initial"),
              Event.message ⟨QtMsgType.QtDebugMsg, QL1S "elements: 3"⟩,
              Event.pass Pass.convertEntityData, Event.pass Pass.splitStyleAttributes,
              Event.pass Pass.convertCDATAStyle, Event.pass Pass.convertUnits]
              ++ [Event.message ⟨QtMsgType.QtFatalMsg, QL1S "bad unit"⟩, Event.release])
        ∧ s1.appLog.units = logUnits
            ([Event.processFile (QL1S "a.svg") (QL1S "b.svg"), Event.loadFile (QL1S "a.svg"),
              Event.calcElemAttrCount (QL1S "initial"),
              Event.message ⟨QtMsgType.QtDebugMsg, QL1S "elements: 3"⟩,
              Event.pass Pass.convertEntityData, Event.pass Pass.splitStyleAttributes,
              Event.pass Pass.convertCDATAStyle, Event.pass Pass.convertUnits]
              ++ [Event.message ⟨QtMsgType.QtFatalMsg, QL1S "bad unit"⟩])
        ∧ s1.sharedMemory = crashJob.segment :=
  ⟨rfl, by decide, rfl, rfl,
    workerLoop_fatal_job_leaves_segment sampleKeys crashJob [] sampleWorker _ _ _ rfl
      (by decide) crashJob_events crashJob_pre_quiet rfl rfl rfl⟩

/-- C7 as stated fails: the sample job emits `elements: 3` and then the fatal
message `bad unit`; the worker releases `result_ready` and exits with status
1, its log is `elements: 3\nbad unit\n` and would fit in the segment, but the
string that the controller decodes from the segment after the signal is not
that log: the segment still holds the job descriptor. -/
theorem crash_log_not_in_segment :
    ∃ s1, workerLoop sampleKeys [crashJob] sampleWorker = Res.exit 1 s1
      ∧ s1.trace.getLast? = some Event.release
      ∧ s1.appLog.units = (QL1S "elements: 3\nbad unit\n").units
      ∧ (encodeQString s1.appLog).length ≤ s1.sharedMemory.length
      ∧ (readQString ⟨s1.sharedMemory, 0⟩).1 = QL1S "a.svg"
      ∧ (readQString ⟨s1.sharedMemory, 0⟩).1.units ≠ s1.appLog.units := by
  obtain ⟨s1, h1, ht, hlog, hmem⟩ :=
    workerLoop_job_fatal sampleKeys crashJob [] sampleWorker _ _ _ rfl
      (by decide) crashJob_events crashJob_pre_quiet rfl rfl rfl
  have hunits : s1.appLog.units = (QL1S "elements: 3\nbad unit\n").units := by
    rw [hlog, logAfter_units]; decide
  have hread : (readQString ⟨crashJob.segment, 0⟩).1 = QL1S "a.svg" := by decide
  refine ⟨s1, h1, ?_, hunits, ?_, ?_, ?_⟩
  · rw [ht]; simp
  · rw [encodeQString_length, QString.size, hunits, hmem]; decide
  · rw [hmem]; exact hread
  · rw [hmem, hread, hunits]; decide

/-- C8. In persistent-worker mode, for a job whose `processFile` call meets no
fatal message, from every state of the worker (whatever the log holds from
option parsing or earlier jobs): the loop goes on after the job, the log then
is exactly the messages emitted while this job was processed, in emission
order, each followed by a newline, and it is what is written to the segment;
when the encoded log fits in the segment, decoding one length-prefixed string
from the segment returns that log. -/
theorem workerLoop_job_log (keys : Key → Bool) (t : Turn) (rest : List Turn) (s : Proc)
    (hh : s.handler = Handler.slaveMessageOutput)
    (ha : t.acquire = true) (hj : isSentinel t.segment = false) (hc : t.env.completes) :
    ∃ s2 evs, workerLoop keys (t :: rest) s = workerLoop keys rest s2
      ∧ s2.trace = s.trace ++ Event.acquire true :: (evs ++ [Event.release])
      ∧ s2.appLog.units = logUnits evs
      ∧ s2.sharedMemory = writeLog t.segment (readJob t.segment).2.2 s2.appLog
      ∧ ((encodeQString s2.appLog).length ≤ t.segment.length →
          t.segment.length < 4294967296 →
          (readQString ⟨s2.sharedMemory, 0⟩).1 = s2.appLog) := by
  obtain ⟨s2, h2, ht, -, -, hlog, hmem⟩ := workerLoop_job_quiet keys t rest s ha hj
    (quiet_processFileEvents keys t.env _ _ hc)
  refine ⟨s2, processFileEvents keys t.env (jobPaths t.segment).1 (jobPaths t.segment).2,
    h2, ht, ?_, hmem, fun hfit hsize => ?_⟩
  · rw [hlog hh, logAfter_units]
    exact List.nil_append _
  · rw [hmem, writeLog_fits _ _ _ (readJob_data t.segment) hfit,
      readQString_encodeQString]
    rw [encodeQString_length] at hfit
    omega

theorem workerLoop_job_log_witness :
    sampleWorker.handler = Handler.slaveMessageOutput
      ∧ sampleJob1.acquire = true ∧ isSentinel sampleJob1.segment = false
      ∧ sampleJob1.env.completes
      ∧ ∃ s2 evs, workerLoop sampleKeys [sampleJob1, sampleSentinel] sampleWorker
          = workerLoop sampleKeys [sampleSentinel] s2
        ∧ s2.trace = sampleWorker.trace ++ Event.acquire true :: (evs ++ [Event.release])
        ∧ s2.appLog.units = logUnits evs
        ∧ s2.sharedMemory = writeLog sampleJob1.segment (readJob sampleJob1.segment).2.2 s2.appLog
        ∧ ((encodeQString s2.appLog).length ≤ sampleJob1.segment.length →
            sampleJob1.segment.length < 4294967296 →
            (readQString ⟨s2.sharedMemory, 0⟩).1 = s2.appLog) :=
  ⟨rfl, rfl, by decide, sampleEnv_completes,
    workerLoop_job_log sampleKeys sampleJob1 [sampleSentinel] sampleWorker rfl rfl (by decide)
      sampleEnv_completes⟩

/-- C10. When the worker writes the result of a job whose `processFile` call
meets no fatal message, it never writes past the segment: with C the size of
the segment and L the length of the encoded log, the segment keeps its size,
its first min(L, C) bytes are the first min(L, C) bytes of the encoded log,
every byte at an offset from min(L, C) up to C has the value it had when the
job descriptor was read, and an encoded log longer than C is cut to its first
C bytes. -/
theorem workerLoop_job_write_within_segment (keys : Key → Bool) (t : Turn) (rest : List Turn)
    (s : Proc) (ha : t.acquire = true) (hj : isSentinel t.segment = false)
    (hc : t.env.completes) :
    ∃ s2, workerLoop keys (t :: rest) s = workerLoop keys rest s2
      ∧ s2.sharedMemory.length = t.segment.length
      ∧ s2.sharedMemory.take (min (encodeQString s2.appLog).length t.segment.length)
          = (encodeQString s2.appLog).take
              (min (encodeQString s2.appLog).length t.segment.length)
      ∧ (∀ i, min (encodeQString s2.appLog).length t.segment.length ≤ i →
          i < t.segment.length → s2.sharedMemory[i]? = t.segment[i]?)
      ∧ (t.segment.length < (encodeQString s2.appLog).length →
          s2.sharedMemory = (encodeQString s2.appLog).take t.segment.length) := by
  obtain ⟨s2, h2, -, -, -, -, hmem⟩ := workerLoop_job_quiet keys t rest s ha hj
    (quiet_processFileEvents keys t.env _ _ hc)
  have hb := readJob_data t.segment
  refine ⟨s2, h2, ?_, ?_, ?_, ?_⟩
  · rw [hmem, writeLog_length _ _ _ hb]
  · rw [hmem]
    by_cases hfit : (encodeQString s2.appLog).length ≤ t.segment.length
    · rw [writeLog_fits _ _ _ hb hfit, Nat.min_eq_left hfit, List.take_left, List.take_length]
    · have hbig : t.segment.length ≤ (encodeQString s2.appLog).length := by omega
      rw [writeLog_overflow _ _ _ hb hbig, Nat.min_eq_right hbig, List.take_take,
        Nat.min_self]
  · intro i hi hlt
    have hge : (encodeQString s2.appLog).length ≤ i := by
      rcases Nat.le_total (encodeQString s2.appLog).length t.segment.length with h | h
      · rwa [Nat.min_eq_left h] at hi
      · rw [Nat.min_eq_right h] at hi; omega
    rw [hmem, writeLog_frame _ _ _ hb i hge, if_pos hlt]
  · intro hbig
    rw [hmem]
    exact writeLog_overflow _ _ _ hb (Nat.le_of_lt hbig)

theorem workerLoop_job_write_within_segment_witness :
    sampleJob1.acquire = true ∧ isSentinel sampleJob1.segment = false
      ∧ sampleJob1.env.completes
      ∧ ∃ s2, workerLoop sampleKeys [sampleJob1, sampleSentinel] sampleWorker
          = workerLoop sampleKeys [sampleSentinel] s2
        ∧ s2.sharedMemory.length = sampleJob1.segment.length
        ∧ s2.sharedMemory.take
            (min (encodeQString s2.appLog).length sampleJob1.segment.length)
            = (encodeQString s2.appLog).take
                (min (encodeQString s2.appLog).length sampleJob1.segment.length)
        ∧ (∀ i, min (encodeQString s2.appLog).length sampleJob1.segment.length ≤ i →
            i < sampleJob1.segment.length → s2.sharedMemory[i]? = sampleJob1.segment[i]?)
        ∧ (sampleJob1.segment.length < (encodeQString s2.appLog).length →
            s2.sharedMemory = (encodeQString s2.appLog).take sampleJob1.segment.length) :=
  ⟨rfl, by decide, sampleEnv_completes,
    workerLoop_job_write_within_segment sampleKeys sampleJob1 [sampleSentinel] sampleWorker rfl
      (by decide) sampleEnv_completes⟩

/-! ## The mandatory passes of a run -/

/-- A replay that meets a fatal message, under any handler: the trace gets the
events before the message, the message, and at most one release. -/
theorem play_fatal_any (pre post : List Event) (m : Msg) (s : Proc) (hq : quiet pre)
    (hm : m.type = QtMsgType.QtFatalMsg) :
    ∃ extra, (play (pre ++ Event.message m :: post) s).proc.trace
        = s.trace ++ (pre ++ Event.message m :: extra)
      ∧ (extra = [] ∨ extra = [Event.release]) := by
  obtain ⟨s0, h0, ht, -⟩ := play_quiet pre s hq
  have hplay : play (pre ++ Event.message m :: post) s = qtMessage m s0 := by
    rw [play_append, M.bind_ok h0, play_cons, emit_message]
    have := qtMessage_fatal m s0 hm
    rw [M.bind_def]
    cases hr : qtMessage m s0 with
    | ok a s1 => exact absurd hr (this.1 s1)
    | exit c s1 => rfl
    | abort s1 => rfl
    | blocked s1 => rfl
  rcases (qtMessage_fatal m s0 hm).2.2 with h | h
  · exact ⟨[], by rw [hplay, h, ht]; simp, Or.inl rfl⟩
  · exact ⟨[Event.release], by rw [hplay, h, ht]; simp, Or.inr rfl⟩

theorem passesOf_processFileEvents (keys : Key → Bool) (env : FileEnv)
    (inPath outPath : QString) :
    passesOf (processFileEvents keys env inPath outPath) = filteredSequence keys := by
  rw [processFileEvents, passesOf_append, passesOf_cleanEvents, passesOf_saveEvents]
  simp

/-- The mandatory passes of a beginning of the filtered master sequence are a
beginning of the seventeen, and all of them once `finalFixes` is among them. -/
theorem mandatory_of_initial (keys : Key → Bool) (P : List Pass)
    (h : P <+: filteredSequence keys) :
    P.filter (fun p => decide (p ∈ mandatoryPasses)) <+: mandatoryPasses
      ∧ (Pass.finalFixes ∈ P →
          P.filter (fun p => decide (p ∈ mandatoryPasses)) = mandatoryPasses) := by
  obtain ⟨t, ht⟩ := h
  have hsplit : P.filter (fun p => decide (p ∈ mandatoryPasses))
      ++ t.filter (fun p => decide (p ∈ mandatoryPasses)) = mandatoryPasses := by
    rw [← List.filter_append, ht]
    exact filteredSequence_filter_mandatory keys
  refine ⟨⟨_, hsplit⟩, fun hfin => ?_⟩
  have hA : Pass.finalFixes ∈ P.filter (fun p => decide (p ∈ mandatoryPasses)) :=
    List.mem_filter.2 ⟨hfin, by decide⟩
  generalize P.filter (fun p => decide (p ∈ mandatoryPasses)) = A at hsplit hA
  generalize t.filter (fun p => decide (p ∈ mandatoryPasses)) = B at hsplit
  have hlast : mandatoryPasses = mandatoryPasses.take 16 ++ [Pass.finalFixes] := by decide
  have hnot : Pass.finalFixes ∉ mandatoryPasses.take 16 := by decide
  rw [hlast] at hsplit
  rcases List.append_eq_append_iff.1 hsplit with ⟨a, ha, -⟩ | ⟨c, hc, hb⟩
  · exact absurd (by rw [ha]; exact List.mem_append_left _ hA) hnot
  · cases c with
    | nil =>
      rw [List.append_nil] at hc
      exact absurd (hc ▸ hA) hnot
    | cons x c =>
      cases c with
      | nil =>
        simp only [List.cons_append, List.nil_append, List.cons.injEq] at hb
        rw [hc, ← hb.1]
        exact hlast.symm
      | cons y c => simp at hb

/-- C5, as the code has it. For every option set and every run of
`processFile`, also one that a fatal message cuts short, the mandatory passes
in the trace are a beginning of the same 17-entry sequence; they are the whole
sequence when no fatal message is emitted in the run, when the run reaches
`finalFixes`, and when the document loads and no pass emits a fatal message.
With every flag false the passes of the trace are a beginning of that
sequence, and exactly that sequence when no fatal message is emitted. -/
theorem processFile_mandatory_passes_of_run (keys : Key → Bool) (env : FileEnv)
    (inPath outPath : QString) (s : Proc) :
    mandatoryPasses.length = 17
      ∧ ∃ tr, (processFile keys env inPath outPath s).proc.trace = s.trace ++ tr
          ∧ (passesOf tr).filter (fun p => decide (p ∈ mandatoryPasses)) <+: mandatoryPasses
          ∧ (quiet tr →
              (passesOf tr).filter (fun p => decide (p ∈ mandatoryPasses)) = mandatoryPasses)
          ∧ (Pass.finalFixes ∈ passesOf tr →
              (passesOf tr).filter (fun p => decide (p ∈ mandatoryPasses)) = mandatoryPasses)
          ∧ (env.cleans →
              (passesOf tr).filter (fun p => decide (p ∈ mandatoryPasses)) = mandatoryPasses)
          ∧ ((∀ k, keys k = false) →
              passesOf tr <+: mandatoryPasses ∧ (quiet tr → passesOf tr = mandatoryPasses)) := by
  refine ⟨rfl, ?_⟩
  have hall := passesOf_processFileEvents keys env inPath outPath
  have hgoal : ∃ tr, (processFile keys env inPath outPath s).proc.trace = s.trace ++ tr
      ∧ passesOf tr <+: filteredSequence keys
      ∧ (quiet tr → passesOf tr = filteredSequence keys) := by
    rw [processFile_eq_play]
    rcases quiet_or_fatal (processFileEvents keys env inPath outPath) with
      hq | ⟨pre, m, post, hev, hq, hm⟩
    · obtain ⟨s1, h1, ht, -⟩ := play_quiet _ s hq
      exact ⟨_, by rw [h1]; exact ht, by rw [hall], fun _ => hall⟩
    · rw [hev] at hall ⊢
      obtain ⟨extra, ht, hex⟩ := play_fatal_any pre post m s hq hm
      have hp : passesOf (pre ++ Event.message m :: extra) = passesOf pre := by
        rw [passesOf_append]
        rcases hex with rfl | rfl <;> simp [passesOf]
      refine ⟨_, ht, ?_, fun hquiet => ?_⟩
      · rw [hp, ← hall, passesOf_append]
        exact List.prefix_append _ _
      · exact absurd hm (quiet_not_fatal_mem hquiet (by simp))
  obtain ⟨tr, ht, hpre, hcomplete⟩ := hgoal
  obtain ⟨hm1, hm2⟩ := mandatory_of_initial keys (passesOf tr) hpre
  refine ⟨tr, ht, hm1, fun hq => ?_, hm2, fun hc => ?_, fun hk => ?_⟩
  · rw [hcomplete hq]; exact filteredSequence_filter_mandatory keys
  · obtain ⟨tr1, ht1, hp1⟩ := processFile_trace_cleans keys env inPath outPath s hc
    have : tr1 = tr := List.append_cancel_left (ht1.symm.trans ht)
    rw [← this, hp1]; exact filteredSequence_filter_mandatory keys
  · rw [← filteredSequence_all_false keys hk]
    exact ⟨hpre, hcomplete⟩

theorem processFile_mandatory_passes_of_run_witness :
    (∀ k, noKeys k = false)
      ∧ passesOf (processFile noKeys sampleEnv (QL1S "a.svg") (QL1S "b.svg")
          Proc.start).proc.trace = mandatoryPasses := by
  refine ⟨fun _ => rfl, ?_⟩
  obtain ⟨-, tr, ht, -, -, -, -, hk⟩ :=
    processFile_mandatory_passes_of_run noKeys sampleEnv (QL1S "a.svg") (QL1S "b.svg")
      Proc.start
  obtain ⟨s1, h1, ht1, -⟩ :=
    processFile_completes noKeys sampleEnv (QL1S "a.svg") (QL1S "b.svg") Proc.start
      sampleEnv_completes
  rw [h1] at ht
  have htr : processFileEvents noKeys sampleEnv (QL1S "a.svg") (QL1S "b.svg") = tr :=
    List.append_cancel_left (ht1.symm.trans ht)
  rw [h1]
  show passesOf s1.trace = mandatoryPasses
  have hs : s1.trace = tr := by rw [ht1, htr]; rfl
  rw [hs]
  exact (hk fun _ => rfl).2
    (htr ▸ quiet_processFileEvents noKeys sampleEnv _ _ sampleEnv_completes)

/-- The events of the sample run in which the flag `CreateViewbox` is on and
`convertSizeToViewbox` emits a fatal message. -/
theorem gatedCrash_events :
    processFileEvents viewboxKeys gatedCrashEnv (QL1S "a.svg") (QL1S "b.svg")
      = [Event.processFile (QL1S "a.svg") (QL1S "b.svg"),
          Event.message ⟨QtMsgType.QtDebugMsg,
            QL1S ("The initial file size is: " ++ fmtU gatedCrashEnv.initialSize)⟩,
          Event.loadFile (QL1S "a.svg"), Event.calcElemAttrCount (QL1S "initial"),
          Event.message ⟨QtMsgType.QtDebugMsg, QL1S "elements: 3"⟩,
          Event.pass Pass.convertEntityData, Event.pass Pass.splitStyleAttributes,
          Event.pass Pass.convertCDATAStyle, Event.pass Pass.convertUnits,
          Event.pass Pass.prepareDefs, Event.pass Pass.fixWrongAttr,
          Event.pass Pass.roundNumericAttributes, Event.pass Pass.prepareLinkedStyles,
          Event.pass Pass.convertColors, Event.pass Pass.cleanSvgElementAttribute,
          Event.pass Pass.convertSizeToViewbox]
        ++ Event.message ⟨QtMsgType.QtFatalMsg, QL1S "bad size"⟩ ::
          (processFileEvents viewboxKeys gatedCrashEnv (QL1S "a.svg") (QL1S "b.svg")).drop 17 :=
  rfl

/-- C5 as stated fails: with the same document and collaborators, the run
with every flag off calls the seventeen mandatory passes, and the run with
only `CreateViewbox` on calls the first ten of them and ends: the gated pass
`convertSizeToViewbox` emits a fatal message, so `removeElements` and the six
mandatory passes after it are removed from the run by a flag. -/
theorem mandatory_passes_cut_by_flag :
    (passesOf (processFile noKeys gatedCrashEnv (QL1S "a.svg") (QL1S "b.svg")
        Proc.start).proc.trace).filter (fun p => decide (p ∈ mandatoryPasses))
      = mandatoryPasses
    ∧ (passesOf (processFile viewboxKeys gatedCrashEnv (QL1S "a.svg") (QL1S "b.svg")
        Proc.start).proc.trace).filter (fun p => decide (p ∈ mandatoryPasses))
      = mandatoryPasses.take 10
    ∧ (passesOf (processFile viewboxKeys gatedCrashEnv (QL1S "a.svg") (QL1S "b.svg")
        Proc.start).proc.trace).filter (fun p => decide (p ∈ mandatoryPasses))
      ≠ (passesOf (processFile noKeys gatedCrashEnv (QL1S "a.svg") (QL1S "b.svg")
        Proc.start).proc.trace).filter (fun p => decide (p ∈ mandatoryPasses))
    ∧ Pass.removeElements ∉ passesOf (processFile viewboxKeys gatedCrashEnv (QL1S "a.svg")
        (QL1S "b.svg") Proc.start).proc.trace := by
  have hq : quiet (processFileEvents noKeys gatedCrashEnv (QL1S "a.svg") (QL1S "b.svg")) := by
    intro m hm
    have hall : ∀ x ∈ messagesOf (processFileEvents noKeys gatedCrashEnv (QL1S "a.svg")
        (QL1S "b.svg")), x.type = QtMsgType.QtDebugMsg := by decide
    rw [hall m hm]; decide
  obtain ⟨s1, h1, ht1, -⟩ := play_quiet _ Proc.start hq
  have hA : passesOf (processFile noKeys gatedCrashEnv (QL1S "a.svg") (QL1S "b.svg")
      Proc.start).proc.trace = mandatoryPasses := by
    rw [processFile_eq_play, h1]
    show passesOf s1.trace = _
    rw [ht1, passesOf_append, passesOf_processFileEvents,
      filteredSequence_all_false noKeys fun _ => rfl]
    rfl
  obtain ⟨extra, ht, hex⟩ := play_fatal_any _
    ((processFileEvents viewboxKeys gatedCrashEnv (QL1S "a.svg") (QL1S "b.svg")).drop 17)
    ⟨QtMsgType.QtFatalMsg, QL1S "bad size"⟩ Proc.start
    (show quiet [Event.processFile (QL1S "a.svg") (QL1S "b.svg"),
          Event.message ⟨QtMsgType.QtDebugMsg,
            QL1S ("The initial file size is: " ++ fmtU gatedCrashEnv.initialSize)⟩,
          Event.loadFile (QL1S "a.svg"), Event.calcElemAttrCount (QL1S "initial"),
          Event.message ⟨QtMsgType.QtDebugMsg, QL1S "elements: 3"⟩,
          Event.pass Pass.convertEntityData, Event.pass Pass.splitStyleAttributes,
          Event.pass Pass.convertCDATAStyle, Event.pass Pass.convertUnits,
          Event.pass Pass.prepareDefs, Event.pass Pass.fixWrongAttr,
          Event.pass Pass.roundNumericAttributes, Event.pass Pass.prepareLinkedStyles,
          Event.pass Pass.convertColors, Event.pass Pass.cleanSvgElementAttribute,
          Event.pass Pass.convertSizeToViewbox] by
      intro m hm
      simp only [messagesOf, List.filterMap_cons, List.filterMap_nil, List.mem_cons,
        List.mem_singleton, List.not_mem_nil, or_false] at hm
      rcases hm with rfl | rfl <;> decide) rfl
  have hB : passesOf (processFile viewboxKeys gatedCrashEnv (QL1S "a.svg") (QL1S "b.svg")
      Proc.start).proc.trace
      = [Pass.convertEntityData, Pass.splitStyleAttributes, Pass.convertCDATAStyle,
          Pass.convertUnits, Pass.prepareDefs, Pass.fixWrongAttr, Pass.roundNumericAttributes,
          Pass.prepareLinkedStyles, Pass.convertColors, Pass.cleanSvgElementAttribute,
          Pass.convertSizeToViewbox] := by
    rw [processFile_eq_play, gatedCrash_events, ht]
    rcases hex with rfl | rfl <;> rfl
  rw [hA, hB]
  exact ⟨by decide, by decide, by decide, by decide⟩

/-! ## The informational paths of `main` -/

theorem onlyDebug_debugMessages (l : List QString) : onlyDebug (debugMessages l) := by
  intro e he
  obtain ⟨x, -, rfl⟩ := List.mem_map.1 he
  exact ⟨x, rfl⟩

theorem quiet_debugMessages (l : List QString) : quiet (debugMessages l) := by
  induction l with
  | nil => exact quiet_nil
  | cons x xs ih => exact quiet_cons_message.2 ⟨by simp, ih⟩

theorem debugMessages_append (a b : List QString) :
    debugMessages (a ++ b) = debugMessages a ++ debugMessages b := by
  simp [debugMessages]

theorem qDebug_eq_play (x : QString) : qDebug x = play (debugMessages [x]) := by
  simp only [debugMessages, List.map_cons, List.map_nil, play_cons, play_nil, emit, qDebug,
    bind_pure_unit]

theorem forEach_eq_play {α : Type} (f : α → M Unit) (g : α → QString)
    (h : ∀ a, f a = qDebug (g a)) (l : List α) :
    forEach f l = play (debugMessages (l.map g)) := by
  induction l with
  | nil => rfl
  | cons a as ih =>
    show (f a >>= fun _ => forEach f as) = _
    rw [ih, h a, qDebug_eq_play, ← play_append, ← debugMessages_append]
    rfl

theorem QString.mk_append (u : List QChar) (b : QString) :
    QString.mk u ++ b = QString.mk (u ++ b.units) := by
  cases b <;> rfl

theorem QString.units_mk (u : List QChar) : (QString.mk u).units = u := rfl

theorem printLineStr_eq (key desc : QString) :
    printLineStr key desc = qDebug (usageLine key desc) := by
  unfold printLineStr usageLine leftJustified
  simp only [QL1S, QString.mk_append, QString.units_mk, QString.size, List.append_assoc]

theorem printLine_null (t : KeysTable) (key : Key) :
    printLine t key QString.null = qDebug (usageLine (t.keyName key) (t.description key)) := by
  unfold printLine
  rw [if_pos (by rfl)]
  exact printLineStr_eq _ _

theorem printLine_description (t : KeysTable) (key : Key) :
    printLine t key (t.description key)
      = qDebug (usageLine (t.keyName key) (t.description key)) := by
  unfold printLine
  split <;> exact printLineStr_eq _ _

/-- The usage text is what `showHelp` emits. -/
theorem showHelp_eq_play (q : QDebugStream) (t : KeysTable) :
    showHelp q t = play (debugMessages (usageText q t)) := by
  have e1 := forEach_eq_play (fun key =>
      if key = Key.RemoveTinyGaussianBlur then
        printLineStr (t.keyName key ++ QL1S "=<0..1.0>")
          (t.description key ++ (QL1S " [default: "
            ++ t.argDoubleText Key.RemoveTinyGaussianBlur ++ QL1S "]"))
      else
        printLine t key QString.null)
    (fun key =>
      if key = Key.RemoveTinyGaussianBlur then
        usageLine (t.keyName key ++ QL1S "=<0..1.0>")
          (t.description key
            ++ (QL1S " [default: " ++ t.argDoubleText Key.RemoveTinyGaussianBlur ++ QL1S "]"))
      else usageLine (t.keyName key) (t.description key))
    (fun key => by
      by_cases h : key = Key.RemoveTinyGaussianBlur <;>
        simp only [h, if_true, if_false, printLineStr_eq, printLine_null])
    t.elementsKeysId
  have e2 := fun l => forEach_eq_play (fun key => printLine t key QString.null)
    (fun key => usageLine (t.keyName key) (t.description key))
    (fun key => printLine_null t key) l
  have e3 := forEach_eq_play (fun key => printLine t key (t.description key))
    (fun key => usageLine (t.keyName key) (t.description key))
    (fun key => printLine_description t key) t.pathsKeysId
  have e4 := forEach_eq_play (fun key =>
      if key = Key.TransformPrecision ∨ key = Key.AttributesPrecision
          ∨ key = Key.CoordsPrecision then
        printLineStr (t.keyName key ++ QL1S "=<1..8>")
          (t.description key ++ (QL1S " [default: " ++ t.argDoubleText key ++ QL1S "]"))
      else
        printLine t key QString.null)
    (fun key =>
      if key = Key.TransformPrecision ∨ key = Key.AttributesPrecision
          ∨ key = Key.CoordsPrecision then
        usageLine (t.keyName key ++ QL1S "=<1..8>")
          (t.description key ++ (QL1S " [default: " ++ t.argDoubleText key ++ QL1S "]"))
      else usageLine (t.keyName key) (t.description key))
    (fun key => by
      by_cases h : key = Key.TransformPrecision ∨ key = Key.AttributesPrecision
          ∨ key = Key.CoordsPrecision <;>
        simp only [h, if_true, if_false, printLineStr_eq, printLine_null])
    t.optimizationsKeysId
  unfold showHelp usageText
  simp only [e1, e2, e3, e4]
  simp only [debugMessages, List.map_append, List.map_cons, List.map_nil,
    play_append, play_cons, play_nil, emit, bind_assoc, pure_bind, bind_pure, bind_pure_unit,
    qDebug, printLineStr_eq]

/-- What `showPresetInfo` emits for a preset and its key list. -/
theorem showPresetInfo_eq_play (q : QDebugStream) (t : KeysTable) (presetName : QString) :
    showPresetInfo q t presetName
      = play (debugMessages
          ((if presetName.endsWith Preset.Basic then t.basicPresetKeys
            else if presetName.endsWith Preset.Complete then t.completePresetKeys
            else if presetName.endsWith Preset.Extreme then t.extremePresetKeys
            else []).map fun key => q.ofQString
              (listedKey t
                (if presetName.endsWith Preset.Basic then Preset.Basic
                 else if presetName.endsWith Preset.Complete then Preset.Complete
                 else if presetName.endsWith Preset.Extreme then Preset.Extreme
                 else QString.null) key))) := by
  unfold showPresetInfo
  simp only []
  split
  · exact forEach_eq_play _ _ (fun key => by unfold listedKey; split_ifs <;> rfl) _
  · split
    · exact forEach_eq_play _ _ (fun key => by unfold listedKey; split_ifs <;> rfl) _
    · split
      · exact forEach_eq_play _ _ (fun key => by unfold listedKey; split_ifs <;> rfl) _
      · rfl

/-- Texts emitted with `qDebug` from the start of the process: the run
returns and the trace is these messages. -/
theorem play_debugMessages_start (l : List QString) :
    ∃ s1, play (debugMessages l) Proc.start = Res.ok () s1 ∧ s1.trace = debugMessages l := by
  obtain ⟨s1, h1, ht, -⟩ := play_quiet _ Proc.start (quiet_debugMessages l)
  exact ⟨s1, h1, by rw [ht]; rfl⟩

/-- C9. For every argument list, with the executable path removed, `main`
returns 0 on an informational path, the trace holding debug messages only
(nothing is loaded, cleaned or written), in these cases, tested in this
order: the list contains `-v` or `--version`, and the version string `0.7.0`
is printed; otherwise it contains `-h` or `--help` or has fewer than two
arguments, and the usage text is printed, message by message; otherwise it
has exactly two arguments and contains `--info`, and the keys of the preset
that the second argument names are printed, one message a key: those of the
Basic preset when it ends with `basic` (as `--preset=basic` does), else those
of the Complete preset when it ends with `complete`, else those of the
Extreme preset when it ends with `extreme`, else nothing. -/
theorem main_informational (sys : Sys) (argv : List QString) :
    ((contains argv.tail (QL1S "-v") || contains argv.tail (QL1S "--version")) = true →
        main sys argv Proc.start = Res.ok 0
          { Proc.start with
            stderr := [Printed.text (sys.stream.ofChars (QL1S "0.7.0") ++ QL1S "\n")]
            trace := [Event.message
              ⟨QtMsgType.QtDebugMsg, sys.stream.ofChars (QL1S "0.7.0")⟩] })
    ∧ ((contains argv.tail (QL1S "-v") || contains argv.tail (QL1S "--version")) = false →
        (contains argv.tail (QL1S "-h") || contains argv.tail (QL1S "--help")
          || decide (argv.tail.length < 2)) = true →
        ∃ s1, main sys argv Proc.start = Res.ok 0 s1
          ∧ s1.trace = debugMessages (usageText sys.stream sys.table)
          ∧ onlyDebug s1.trace)
    ∧ ((contains argv.tail (QL1S "-v") || contains argv.tail (QL1S "--version")) = false →
        (contains argv.tail (QL1S "-h") || contains argv.tail (QL1S "--help")
          || decide (argv.tail.length < 2)) = false →
        (contains argv.tail (QL1S "--info") && decide (argv.tail.length = 2)) = true →
        ∃ s1, main sys argv Proc.start = Res.ok 0 s1 ∧ onlyDebug s1.trace
          ∧ ((argv.tail.getD 1 QString.null).endsWith Preset.Basic = true →
              s1.trace = debugMessages (sys.table.basicPresetKeys.map fun key =>
                sys.stream.ofQString (listedKey sys.table Preset.Basic key)))
          ∧ ((argv.tail.getD 1 QString.null).endsWith Preset.Basic = false →
              (argv.tail.getD 1 QString.null).endsWith Preset.Complete = true →
              s1.trace = debugMessages (sys.table.completePresetKeys.map fun key =>
                sys.stream.ofQString (listedKey sys.table Preset.Complete key)))
          ∧ ((argv.tail.getD 1 QString.null).endsWith Preset.Basic = false →
              (argv.tail.getD 1 QString.null).endsWith Preset.Complete = false →
              (argv.tail.getD 1 QString.null).endsWith Preset.Extreme = true →
              s1.trace = debugMessages (sys.table.extremePresetKeys.map fun key =>
                sys.stream.ofQString (listedKey sys.table Preset.Extreme key)))
          ∧ ((argv.tail.getD 1 QString.null).endsWith Preset.Basic = false →
              (argv.tail.getD 1 QString.null).endsWith Preset.Complete = false →
              (argv.tail.getD 1 QString.null).endsWith Preset.Extreme = false →
              s1.trace = []))
    ∧ (QL1S "--preset=basic").endsWith Preset.Basic = true
    ∧ (QL1S "--preset=complete").endsWith Preset.Basic = false
    ∧ (QL1S "--preset=complete").endsWith Preset.Complete = true
    ∧ (QL1S "--preset=extreme").endsWith Preset.Basic = false
    ∧ (QL1S "--preset=extreme").endsWith Preset.Complete = false
    ∧ (QL1S "--preset=extreme").endsWith Preset.Extreme = true := by
  refine ⟨fun hv => ?_, fun hv hh => ?_, fun hv hh hi => ?_,
    by decide, by decide, by decide, by decide, by decide, by decide⟩
  · simp only [main, hv, if_true]
    rfl
  · obtain ⟨s1, h1, ht⟩ := play_debugMessages_start (usageText sys.stream sys.table)
    rw [← showHelp_eq_play] at h1
    refine ⟨s1, ?_, ht, ht ▸ onlyDebug_debugMessages _⟩
    simp only [main, hv, hh, if_true, Bool.false_eq_true, if_false]
    rw [M.bind_ok h1]
    rfl
  · obtain ⟨s1, h1, ht⟩ := play_debugMessages_start
      ((if (argv.tail.getD 1 QString.null).endsWith Preset.Basic then sys.table.basicPresetKeys
        else if (argv.tail.getD 1 QString.null).endsWith Preset.Complete then sys.table.completePresetKeys
        else if (argv.tail.getD 1 QString.null).endsWith Preset.Extreme then sys.table.extremePresetKeys
        else []).map fun key => sys.stream.ofQString
          (listedKey sys.table
            (if (argv.tail.getD 1 QString.null).endsWith Preset.Basic then Preset.Basic
             else if (argv.tail.getD 1 QString.null).endsWith Preset.Complete then Preset.Complete
             else if (argv.tail.getD 1 QString.null).endsWith Preset.Extreme then Preset.Extreme
             else QString.null) key))
    rw [← showPresetInfo_eq_play] at h1
    refine ⟨s1, ?_, ht ▸ onlyDebug_debugMessages _, fun hb => ?_, fun hb hc => ?_,
      fun hb hc he => ?_, fun hb hc he => ?_⟩
    · simp only [main, hv, hh, hi, if_true, Bool.false_eq_true, if_false]
      rw [M.bind_ok h1]
      rfl
    · rw [ht]; simp only [hb, if_true]
    · rw [ht]; simp only [hb, hc, if_true, Bool.false_eq_true, if_false]
    · rw [ht]; simp only [hb, hc, he, if_true, Bool.false_eq_true, if_false]
    · rw [ht]; simp only [hb, hc, he, Bool.false_eq_true, if_false]; rfl

theorem main_informational_witness :
    (contains [QL1S "--info", QL1S "--preset=basic"] (QL1S "-v")
        || contains [QL1S "--info", QL1S "--preset=basic"] (QL1S "--version")) = false
    ∧ (∃ s1, main sampleSys [QL1S "svgcleaner-cli", QL1S "--info", QL1S "--preset=basic"]
          Proc.start = Res.ok 0 s1
      ∧ s1.trace = [Event.message ⟨QtMsgType.QtDebugMsg, QL1S "\"--trim-ids\""⟩,
          Event.message ⟨QtMsgType.QtDebugMsg, QL1S "\"--key=3\""⟩])
    ∧ (∃ s1, main sampleSys [QL1S "svgcleaner-cli", QL1S "a.svg"] Proc.start = Res.ok 0 s1
      ∧ s1.trace.take 4 = [Event.message ⟨QtMsgType.QtDebugMsg,
            QL1S "SVG Cleaner could help you to clean up your SVG files from unnecessary data."⟩,
          Event.message ⟨QtMsgType.QtDebugMsg, QL1S ""⟩,
          Event.message ⟨QtMsgType.QtDebugMsg, QL1S "Usage:"⟩,
          Event.message ⟨QtMsgType.QtDebugMsg,
            QL1S "  svgcleaner-cli <in-file> <out-file> [--preset=] [--options]"⟩]) := by
  refine ⟨by decide, ?_, ?_⟩
  · obtain ⟨s1, h1, -, hb, -⟩ := (main_informational sampleSys
      [QL1S "svgcleaner-cli", QL1S "--info", QL1S "--preset=basic"]).2.2.1
      (by decide) (by decide) (by decide)
    refine ⟨s1, h1, ?_⟩
    rw [hb (by decide)]
    decide
  · obtain ⟨s1, h1, ht, -⟩ := (main_informational sampleSys
      [QL1S "svgcleaner-cli", QL1S "a.svg"]).2.1 (by decide) (by decide)
    refine ⟨s1, h1, ?_⟩
    rw [ht]
    rfl

end SVGCleaner
